import Mathlib

/-!
Verification development for the Pastry DHT with a per-node KD-Tree store
(repository: Implementation-of-Basic-DHTs).

The Python sources are shallowly embedded here:
* `src/Pastry/node.py` (class `PastryNode`): routing table, leaf set,
  next-hop selection, request handlers, state rebuild.
* `src/Multidimensinal Data Structures/kd_tree.py` (class `KDTree`):
  the per-node 3-D index.

The repository modules `constants.py`, `helper_functions.py` and `lsh.py`
are imported by `node.py` but are not part of the provided sources; the
pure identifier-algebra functions they provide (`common_prefix_length`,
`hex_distance`, `hex_compare`, `topological_distance`) and the constants
(`HASH_HEX_DIGITS`, `b`, `L`) are modelled from the specification text
(spec section 4.1, section 3, and the literal scenarios of section 8).

Python floats are modelled as rationals; fixed-width hexadecimal
identifier strings are modelled as lists of hex digit values.
-/

namespace DHT

/-- Modelled from the spec: `D = HASH_HEX_DIGITS`, the identifier width in
hex digits (default `D = 4`); `constants.py` is not among the sources. -/
def HASH_HEX_DIGITS : Nat := 4

/-- Modelled from the spec: `b`, bits per routing-table digit (default 4,
yielding 16 columns per row); `constants.py` is not among the sources. -/
def b : Nat := 4

/-- Modelled from the spec: `L`, the leaf-set capacity, split as `L/2`
below and `L/2` above the node's own ID; the section-8 scenarios fix
`L = 4`; `constants.py` is not among the sources. -/
def L : Nat := 4

/-- A fixed-width hexadecimal identifier, as its list of hex digit values
(the Python code uses a lowercase hex string of `HASH_HEX_DIGITS` chars). -/
abbrev NodeId := List Nat

/-- An identifier is well formed when it has exactly `HASH_HEX_DIGITS`
digits, each below 16. -/
def ValidIdB (a : NodeId) : Bool :=
  (a.length == HASH_HEX_DIGITS) && a.all fun d => d < 16

/-- Modelled from the spec: `common_prefix_length(a, b)`, the number of
leading hex digits where `a` and `b` agree (`helper_functions.py` is not
among the sources). The Python source calls this `common_prefix_length`. -/
def cpl : NodeId → NodeId → Nat
  | x :: xs, y :: ys => if x = y then cpl xs ys + 1 else 0
  | _, _ => 0

/-- Numeric value of a hex-digit string, as Python's `int(s, 16)`. -/
def idVal (a : NodeId) : Nat :=
  a.foldl (fun acc d => 16 * acc + d) 0

/-- Modelled from the spec: `first_diff(a, b) = (i, delta)` where `i` is
the index of the first differing digit (or `D` if equal) and `delta` is
the plain unsigned numeric distance (the ring is not wrapped); the Python
source calls this `hex_distance`. -/
def hex_distance (a bb : NodeId) : Nat × Nat :=
  (cpl a bb, Nat.dist (idVal a) (idVal bb))

/-- Modelled from the spec: `hex_greater_or_equal(a, b)`, lexicographic
comparison of fixed-width hex strings, which coincides with numeric
comparison at equal width; the Python source calls this `hex_compare`. -/
def hex_compare (a bb : NodeId) : Bool :=
  decide (idVal bb ≤ idVal a)

/-- Modelled from the spec: the topological distance between two node
positions on the `[0,1)` line is the absolute difference `abs (p - q)`,
spelled out so that it evaluates by `decide`. -/
def topological_distance (p q : ℚ) : ℚ := if p ≤ q then q - p else p - q

/-- Render an identifier the way the Python f-strings render the hex
string (only used to model messages embedding a key). -/
def hexChar (d : Nat) : Char :=
  if d < 10 then Char.ofNat (48 + d) else Char.ofNat (87 + d)

/-- Hex string of an identifier, digit by digit. -/
def idStr (a : NodeId) : String :=
  String.mk (a.map hexChar)

/- Basic facts about `cpl` and `idVal`. -/

theorem cpl_le_left : ∀ a bb : NodeId, cpl a bb ≤ a.length := by
  intro a
  induction a with
  | nil => intro bb; cases bb <;> simp [cpl]
  | cons x xs ih =>
    intro bb
    cases bb with
    | nil => simp [cpl]
    | cons y ys =>
      by_cases h : x = y
      · simp only [cpl, if_pos h, List.length_cons]
        exact Nat.succ_le_succ (ih ys)
      · simp [cpl, h]

theorem cpl_le_right : ∀ a bb : NodeId, cpl a bb ≤ bb.length := by
  intro a
  induction a with
  | nil => intro bb; cases bb <;> simp [cpl]
  | cons x xs ih =>
    intro bb
    cases bb with
    | nil => simp [cpl]
    | cons y ys =>
      by_cases h : x = y
      · simp only [cpl, if_pos h, List.length_cons]
        exact Nat.succ_le_succ (ih ys)
      · simp [cpl, h]

theorem cpl_comm : ∀ a bb : NodeId, cpl a bb = cpl bb a := by
  intro a
  induction a with
  | nil => intro bb; cases bb <;> simp [cpl]
  | cons x xs ih =>
    intro bb
    cases bb with
    | nil => simp [cpl]
    | cons y ys =>
      by_cases h : x = y
      · subst h; simp [cpl, ih ys]
      · have h' : ¬y = x := fun hyx => h hyx.symm
        simp [cpl, h, h']

theorem cpl_self : ∀ a : NodeId, cpl a a = a.length := by
  intro a
  induction a with
  | nil => simp [cpl]
  | cons x xs ih => simp [cpl, ih]

theorem eq_of_cpl_eq_length :
    ∀ a bb : NodeId, a.length = bb.length → cpl a bb = a.length → a = bb := by
  intro a
  induction a with
  | nil =>
    intro bb hlen _
    exact (List.length_eq_zero.mp hlen.symm).symm
  | cons x xs ih =>
    intro bb hlen hcpl
    cases bb with
    | nil => simp at hlen
    | cons y ys =>
      by_cases h : x = y
      · subst h
        simp [cpl] at hcpl
        simp at hlen
        simp [ih ys hlen hcpl]
      · simp [cpl, h] at hcpl

theorem cpl_lt_of_ne {a bb : NodeId} (hlen : a.length = bb.length)
    (hne : a ≠ bb) : cpl a bb < a.length := by
  rcases Nat.lt_or_ge (cpl a bb) a.length with h | h
  · exact h
  · exact absurd (eq_of_cpl_eq_length a bb hlen (Nat.le_antisymm (cpl_le_left a bb) h)) hne

theorem getElem?_eq_of_lt_cpl :
    ∀ (a bb : NodeId) (i : Nat), i < cpl a bb → a[i]? = bb[i]? := by
  intro a
  induction a with
  | nil => intro bb i h; cases bb <;> simp [cpl] at h
  | cons x xs ih =>
    intro bb i h
    cases bb with
    | nil => simp [cpl] at h
    | cons y ys =>
      by_cases hxy : x = y
      · subst hxy
        cases i with
        | zero => simp
        | succ j =>
          simp [cpl] at h
          simpa using ih ys j (by omega)
      · simp [cpl, hxy] at h

theorem cpl_digits_ne :
    ∀ a bb : NodeId, cpl a bb < a.length → cpl a bb < bb.length →
      a[cpl a bb]? ≠ bb[cpl a bb]? := by
  intro a
  induction a with
  | nil => intro bb h _; simp at h
  | cons x xs ih =>
    intro bb ha hb
    cases bb with
    | nil => simp at hb
    | cons y ys =>
      by_cases hxy : x = y
      · subst hxy
        simp [cpl] at ha hb ⊢
        exact ih ys (by omega) (by omega)
      · simp [cpl, hxy]

theorem cpl_eq_of_le_of_digit_ne {a bb : NodeId} {k : Nat}
    (hk : k ≤ cpl a bb) (hne : a[k]? ≠ bb[k]?) : cpl a bb = k := by
  rcases Nat.lt_or_ge k (cpl a bb) with h | h
  · exact absurd (getElem?_eq_of_lt_cpl a bb k h) hne
  · omega

theorem idVal_foldl_acc :
    ∀ (xs : List Nat) (acc : Nat),
      xs.foldl (fun a d => 16 * a + d) acc
        = acc * 16 ^ xs.length + xs.foldl (fun a d => 16 * a + d) 0 := by
  intro xs
  induction xs with
  | nil => intro acc; simp
  | cons d ds ih =>
    intro acc
    simp only [List.foldl_cons, List.length_cons]
    rw [ih (16 * acc + d), ih (16 * 0 + d)]
    ring

theorem idVal_cons (x : Nat) (xs : List Nat) :
    idVal (x :: xs) = x * 16 ^ xs.length + idVal xs := by
  simp only [idVal, List.foldl_cons]
  simpa using idVal_foldl_acc xs x

theorem idVal_lt : ∀ xs : List Nat, (∀ d ∈ xs, d < 16) → idVal xs < 16 ^ xs.length := by
  intro xs
  induction xs with
  | nil => intro _; simp [idVal]
  | cons d ds ih =>
    intro h
    have hd : d < 16 := h d (by simp)
    have hds : idVal ds < 16 ^ ds.length := ih fun x hx => h x (by simp [hx])
    rw [idVal_cons]
    have : d * 16 ^ ds.length ≤ 15 * 16 ^ ds.length :=
      Nat.mul_le_mul_right _ (by omega)
    calc d * 16 ^ ds.length + idVal ds
        ≤ 15 * 16 ^ ds.length + idVal ds := by omega
      _ < 15 * 16 ^ ds.length + 16 ^ ds.length := by omega
      _ = 16 ^ (ds.length + 1) := by ring
      _ = 16 ^ (d :: ds).length := by simp

theorem idVal_ne_of_ne :
    ∀ a bb : NodeId, a.length = bb.length →
      (∀ d ∈ a, d < 16) → (∀ d ∈ bb, d < 16) → a ≠ bb →
        idVal a ≠ idVal bb := by
  intro a
  induction a with
  | nil =>
    intro bb hlen _ _ hne
    exact absurd (List.length_eq_zero.mp hlen.symm).symm hne
  | cons x xs ih =>
    intro bb hlen hva hvb hne
    cases bb with
    | nil => simp at hlen
    | cons y ys =>
      simp only [List.length_cons, Nat.succ.injEq] at hlen
      rw [idVal_cons, idVal_cons, hlen]
      rcases Nat.lt_trichotomy x y with hxy | hxy | hxy
      · have h1 : idVal xs < 16 ^ ys.length := by
          rw [← hlen]; exact idVal_lt xs fun d hd => hva d (by simp [hd])
        have : x * 16 ^ ys.length + 16 ^ ys.length ≤ y * 16 ^ ys.length := by
          have := Nat.mul_le_mul_right (16 ^ ys.length) (Nat.succ_le_of_lt hxy)
          simpa [Nat.succ_mul] using this
        omega
      · subst hxy
        have hxs : xs ≠ ys := fun h => hne (by rw [h])
        have := ih ys hlen (fun d hd => hva d (by simp [hd]))
          (fun d hd => hvb d (by simp [hd])) hxs
        omega
      · have h2 : idVal ys < 16 ^ ys.length :=
          idVal_lt ys fun d hd => hvb d (by simp [hd])
        have : y * 16 ^ ys.length + 16 ^ ys.length ≤ x * 16 ^ ys.length := by
          have := Nat.mul_le_mul_right (16 ^ ys.length) (Nat.succ_le_of_lt hxy)
          simpa [Nat.succ_mul] using this
        omega

/- List helpers shared by the embeddings (insertion sort mirrors the
stable ascending behaviour of Python's `sorted`/`list.sort`). -/

/-- Insert `x` in front of the first element of `l` that does not have a
strictly smaller key, as one step of a stable insertion sort.  `x` comes
earlier than the elements of `l` in the original list, so it passes over
`y` only when `y`'s key is strictly smaller; on equal keys `x` stays in
front, matching Python's stable sort. -/
def insSorted (lt : α → α → Bool) (x : α) : List α → List α
  | [] => [x]
  | y :: ys => if lt y x then y :: insSorted lt x ys else x :: y :: ys

/-- Stable insertion sort by a strict comparator, standing in for
Python's stable `sort`. -/
def sortByCmp (lt : α → α → Bool) : List α → List α
  | [] => []
  | x :: xs => insSorted lt x (sortByCmp lt xs)

theorem mem_insSorted {lt : α → α → Bool} {x a : α} :
    ∀ {l : List α}, a ∈ insSorted lt x l → a = x ∨ a ∈ l := by
  intro l
  induction l with
  | nil => intro h; simpa [insSorted] using h
  | cons y ys ih =>
    intro h
    simp only [insSorted] at h
    by_cases hc : lt y x
    · simp only [if_pos hc, List.mem_cons] at h
      rcases h with h | h
      · exact Or.inr (by simp [h])
      · rcases ih h with h | h
        · exact Or.inl h
        · exact Or.inr (by simp [h])
    · simp only [if_neg hc, List.mem_cons] at h
      rcases h with h | h | h
      · exact Or.inl h
      · exact Or.inr (by simp [h])
      · exact Or.inr (by simp [h])

theorem mem_sortByCmp {lt : α → α → Bool} {a : α} :
    ∀ {l : List α}, a ∈ sortByCmp lt l → a ∈ l := by
  intro l
  induction l with
  | nil => intro h; simp [sortByCmp] at h
  | cons x xs ih =>
    intro h
    rcases mem_insSorted h with h | h
    · simp [h]
    · simp [ih h]

/-- Pad a list to `k` slots with `None`s, as
`result[:k] + [None] * (k - len(result))` in the rebuild code. -/
def padTo (k : Nat) (xs : List NodeId) : List (Option NodeId) :=
  xs.map some ++ List.replicate (k - xs.length) none

theorem mem_padTo {k : Nat} {xs : List NodeId} {x : NodeId}
    (h : some x ∈ padTo k xs) : x ∈ xs := by
  simp only [padTo, List.mem_append] at h
  rcases h with h | h
  · simpa using h
  · exact absurd (List.eq_of_mem_replicate h) (by simp)

/-- Index of the first empty (`None`) slot of a leaf list, if any. -/
def firstNoneIdx : List (Option NodeId) → Option Nat
  | [] => none
  | none :: _ => some 0
  | some _ :: xs => (firstNoneIdx xs).map (· + 1)

/-- Python exception kinds that the embedded handlers can raise. -/
inductive PyError
  | typeError
  | indexError
  | attributeError
  | valueError
deriving DecidableEq

deriving instance DecidableEq for Except

/-!
## KD-Tree store (`src/Multidimensinal Data Structures/kd_tree.py`)

The source class `KDTree` keeps exactly two parallel arrays: `points`
(rows of three coordinates) and `reviews`.  It has NO `country_keys`
attribute, its `__init__` accepts only the `points` and `reviews`
keywords, and `add_point` accepts only `(new_point, new_review)`.
-/

/-- The state of the source `KDTree`: parallel `points` and `reviews`
arrays (`kd_tree.py` lines 7-12).  Coordinates are modelled as rationals. -/
structure KDStore where
  points : List (List ℚ)
  reviews : List String
deriving DecidableEq

/-- Squared Euclidean distance between two coordinate rows, used to model
sklearn's `query_radius` test `dist(p, center) <= r` without square roots. -/
def distSq (p q : List ℚ) : ℚ :=
  (List.zipWith (fun x y => (x - y) * (x - y)) p q).sum

/-- Componentwise box membership test of `KDTree.search` (line 70):
`all(lower_bounds[i] <= point[i] <= upper_bounds[i] for i in range(3))`. -/
def inBox (lower upper p : List ℚ) : Bool :=
  (List.range 3).all fun i =>
    match lower[i]?, p[i]?, upper[i]? with
    | some lo, some x, some hi => decide (lo ≤ x ∧ x ≤ hi)
    | _, _, _ => false

/-- Maximum of a nonempty rational list, as Python's `max` (returns 0 on
the empty list, which the callers never produce; ties keep the first
occurrence, as Python does). -/
def maxQ : List ℚ → ℚ
  | [] => 0
  | x :: xs => xs.foldl (fun acc y => if acc < y then y else acc) x

/-- Source `KDTree.search(lower_bounds, upper_bounds)` (kd_tree.py lines 41-83):
raises `ValueError` unless both bounds have three entries, queries the
ball of radius `max((high - low) / 2)` around the box midpoint
(`query_radius`), then filters the returned candidates componentwise,
returning parallel matching points and reviews. -/
def kd_search (t : KDStore) (lower upper : List ℚ) :
    Except PyError (List (List ℚ) × List String) :=
  if lower.length ≠ 3 ∨ upper.length ≠ 3 then .error .valueError
  else
    let center := List.zipWith (fun lo hi => (lo + hi) / 2) lower upper
    let radius := maxQ (List.zipWith (fun lo hi => (hi - lo) / 2) lower upper)
    let inSphere := (t.points.zip t.reviews).filter fun pr =>
      decide (distSq pr.1 center ≤ radius * radius)
    let found := inSphere.filter fun pr => inBox lower upper pr.1
    .ok (found.map (fun pr => pr.1), found.map (fun pr => pr.2))

/-- Written from the spec's words, for comparison with `kd_search`: the
exact contents of the inclusive axis-aligned box `[lower, upper]` among
the stored records. -/
def specBoxContents (t : KDStore) (lower upper : List ℚ) :
    List (List ℚ × String) :=
  (t.points.zip t.reviews).filter fun pr => inBox lower upper pr.1

/-!
## Python call binding for the KD-Tree calls made by the insert handler

`_handle_insert_key_request` (node.py lines 260-270) constructs
`KDTree(points=..., reviews=..., country_keys=...)` on first insert and
calls `kd_tree.add_point(point, review, country)` afterwards.  Python
raises `TypeError` when a call passes an unexpected keyword argument or
more positional arguments than the function accepts.
-/

/-- Keyword parameters accepted by `KDTree.__init__` (kd_tree.py line 8:
`def __init__(self, points, reviews)`). -/
def kdTreeInitParams : List String := ["points", "reviews"]

/-- Keyword arguments passed by the first-insert branch of
`_handle_insert_key_request` (node.py lines 263-267). -/
def insertInitKwargs : List String := ["points", "reviews", "country_keys"]

/-- Python accepts a keyword call iff every keyword names a parameter. -/
def kwargsAccepted (params kwargs : List String) : Bool :=
  kwargs.all fun k => params.contains k

/-- Positional parameters accepted by `KDTree.add_point` beyond `self`
(kd_tree.py line 21: `def add_point(self, new_point, new_review)`). -/
def addPointParamCount : Nat := 2

/-- Positional arguments passed by `_handle_insert_key_request`
(node.py line 270: `self.kd_tree.add_point(point, review, country)`). -/
def insertAddPointArgCount : Nat := 3

/-!
## Response dictionaries

Python handlers build ad-hoc `dict` responses; `Resp` records which keys
a response dictionary carries (absent key = `none`).  Some operations
return Python `None` instead of a dictionary (`PyResp.noneV`).
-/

/-- A response dictionary; each field is `some _` exactly when the Python
handler put that key into the dictionary. -/
structure Resp where
  status : Option String := none
  message : Option String := none
  hops : Option (List NodeId) := none
  leafSetF : Option (List (Option NodeId) × List (Option NodeId)) := none
  distance : Option ℚ := none
  neighborhood_set : Option (List (Option NodeId)) := none
  points : Option (List (List ℚ)) := none
  reviews : Option (List String) := none
  similar : Option (List String) := none
deriving DecidableEq

/-- A Python response value: either `None` or a dictionary. -/
inductive PyResp
  | noneV
  | dict (r : Resp)
deriving DecidableEq

/-!
## Responsible-node branches of the content handlers (node.py)

Each content handler first routes; the functions below embed what the
handler does once `self._in_leaf_set(key) or next_hop_id == self.node_id`
holds, i.e. at the responsible node.  `Except.error` models a raised
Python exception (which `_handle_request` catches, so the client gets no
response at all).
-/

/-- Responsible-node branch of `_handle_insert_key_request` (node.py
lines 260-282).  With no KD-Tree yet it evaluates
`KDTree(points=..., reviews=..., country_keys=...)`, which `TypeError`s
on the unexpected `country_keys` keyword **before** the assignment to
`self.kd_tree`; with an existing KD-Tree it evaluates
`add_point(point, review, country)`, which `TypeError`s on the extra
positional argument before mutating anything.  On (unreachable) success
it would store the record and answer with a status/message dictionary. -/
def handle_insert_responsible (kd : Option KDStore) (key : NodeId)
    (point : List ℚ) (review : String) (selfId : NodeId) :
    Except PyError (Option KDStore × Resp) :=
  let successResp : Resp :=
    { status := some "success"
      message := some ("Key " ++ idStr key ++ " stored at " ++ idStr selfId) }
  match kd with
  | none =>
      if kwargsAccepted kdTreeInitParams insertInitKwargs then
        .ok (some { points := [point], reviews := [review] }, successResp)
      else .error .typeError
  | some t =>
      if insertAddPointArgCount ≤ addPointParamCount then
        .ok (some { points := t.points ++ [point], reviews := t.reviews ++ [review] },
             successResp)
      else .error .typeError

/-- Responsible-node branch of `_handle_delete_key_request` (node.py
lines 296-309).  With no KD-Tree it answers a failure dictionary; with a
KD-Tree it evaluates `key in self.kd_tree.country_keys`, but the source
`KDTree` class has no `country_keys` attribute, so that line raises
`AttributeError`. -/
def handle_delete_responsible (kd : Option KDStore) (key : NodeId) :
    Except PyError (Option KDStore × Resp) :=
  match kd with
  | none =>
      .ok (none,
        { status := some "failure"
          message := some ("No data for key " ++ idStr key ++ ".\n") })
  | some _ => .error .attributeError

/-- Responsible-node branch of `_handle_update_key_request` (node.py
lines 379-395).  `if self.kd_tree and key in self.kd_tree.country_keys`
short-circuits to the failure dictionary (which carries `hops`) when the
KD-Tree is `None`, and raises `AttributeError` otherwise because the
source `KDTree` has no `country_keys` attribute. -/
def handle_update_responsible (kd : Option KDStore) (key : NodeId)
    (hops : List NodeId) : Except PyError (Option KDStore × Resp) :=
  match kd with
  | none =>
      .ok (none,
        { status := some "failure"
          message := some ("Key " ++ idStr key ++ " not found.")
          hops := some hops })
  | some _ => .error .attributeError

/-- Responsible-node branch of `_handle_lookup_request` (node.py lines
327-357).  An uninitialized or empty KD-Tree yields a failure
dictionary; otherwise `KDTree.search` runs, the reviews feed
`TfidfVectorizer().fit_transform` (which raises `ValueError` on an empty
document list) and the LSH engine (`lsh.py`, not among the sources;
modelled from the spec as a total computation), and the success
dictionary reports only a status and a match-count message — the points,
reviews and similar documents are printed, not returned. -/
def handle_lookup_responsible (kd : Option KDStore) (key : NodeId)
    (lower upper : List ℚ) : Except PyError Resp :=
  match kd with
  | none =>
      .ok { status := some "failure"
            message := some ("No data for key " ++ idStr key ++ ".") }
  | some t =>
      if t.points.isEmpty then
        .ok { status := some "failure"
              message := some ("No data for key " ++ idStr key ++ ".") }
      else
        match kd_search t lower upper with
        | .error e => .error e
        | .ok (pts, revs) =>
            if revs.isEmpty then .error .valueError
            else
              .ok { status := some "success"
                    message := some ("Found " ++ toString pts.length
                                      ++ " matching points.") }

/-!
## Reachable KD-Tree stores

A node's `kd_tree` starts as `None` (node.py line 34) and is touched only
by the content handlers.  Each constructor applies the store effect of
one handler invocation at the responsible node; an exception leaves the
store as it was, because in every handler the raise happens before any
assignment to `self.kd_tree` or mutation of the `KDTree` arrays.
-/

/-- Store after an insert at the responsible node (unchanged on error). -/
def storeAfterInsert (kd : Option KDStore) (key : NodeId) (point : List ℚ)
    (review : String) (selfId : NodeId) : Option KDStore :=
  match handle_insert_responsible kd key point review selfId with
  | .ok (kd', _) => kd'
  | .error _ => kd

/-- Store after a delete at the responsible node (unchanged on error). -/
def storeAfterDelete (kd : Option KDStore) (key : NodeId) : Option KDStore :=
  match handle_delete_responsible kd key with
  | .ok (kd', _) => kd'
  | .error _ => kd

/-- Store after an update at the responsible node (unchanged on error). -/
def storeAfterUpdate (kd : Option KDStore) (key : NodeId)
    (hops : List NodeId) : Option KDStore :=
  match handle_update_responsible kd key hops with
  | .ok (kd', _) => kd'
  | .error _ => kd

/-- The KD-Tree stores reachable on a node: `None` at start, then any
sequence of responsible-node content operations (lookups do not write). -/
inductive KDReachable : Option KDStore → Prop
  | init : KDReachable none
  | insert (kd key point review selfId) (h : KDReachable kd) :
      KDReachable (storeAfterInsert kd key point review selfId)
  | delete (kd key) (h : KDReachable kd) :
      KDReachable (storeAfterDelete kd key)
  | update (kd key hops) (h : KDReachable kd) :
      KDReachable (storeAfterUpdate kd key hops)

/-- Every reachable store is still uninitialized: the first insert dies
on the `country_keys` keyword, later inserts on `add_point` arity, so no
operation ever writes a KD-Tree. -/
theorem kd_reachable_eq_none {kd : Option KDStore} (h : KDReachable kd) :
    kd = none := by
  induction h with
  | init => rfl
  | insert kd key point review selfId h ih =>
      subst ih
      simp [storeAfterInsert, handle_insert_responsible, kwargsAccepted,
        kdTreeInitParams, insertInitKwargs]
  | delete kd key h ih =>
      subst ih
      simp [storeAfterDelete, handle_delete_responsible]
  | update kd key hops h ih =>
      subst ih
      simp [storeAfterUpdate, handle_update_responsible]

/-!
## Routing table (node.py)

`routing_table` is a `HASH_HEX_DIGITS x 2^b` matrix of optional IDs
(node.py line 37).  All source writes go through the same pattern: write
`id` at `(row, col)` only if that cell is currently `None`.
-/

/-- The routing table: `HASH_HEX_DIGITS` rows of `2 ^ b` optional IDs. -/
abbrev Tbl := List (List (Option NodeId))

/-- The all-`None` routing table of a fresh node (node.py line 37). -/
def emptyTbl : Tbl :=
  List.replicate HASH_HEX_DIGITS (List.replicate (2 ^ b) none)

/-- Cell `(r, c)` of a table; the outer `none` means out of bounds. -/
def getCell (t : Tbl) (r c : Nat) : Option (Option NodeId) :=
  (t[r]?).bind fun row => row[c]?

/-- Write `e` at `(r, c)` if that cell is currently `None`, the common
write pattern of every routing-table update in node.py.  Out-of-bounds
writes are modelled as no-ops; under the protocol-side conditions of the
step relation they never occur (Python would raise `IndexError`). -/
def writeCell (t : Tbl) (r c : Nat) (e : NodeId) : Tbl :=
  match t[r]? with
  | none => t
  | some row =>
      match row[c]? with
      | some none => t.set r (row.set c (some e))
      | _ => t

/-- Digit `i` of an identifier, as Python's `int(id[i], 16)` (the junk
value 0 for an out-of-range index is unreachable under the step
side conditions). -/
def digitAt (a : NodeId) (i : Nat) : Nat := a.getD i 0

/-- Source `update_routing_table_entry` (node.py lines 708-718): store the sent
`node_id` at row `row_idx`, column `int(node_id[row_idx], 16)`, if that
cell is empty. -/
def op_rt_entry (t : Tbl) (idx : Nat) (nid : NodeId) : Tbl :=
  writeCell t idx (digitAt nid idx) nid

/-- Routing-table part of `_handle_update_presence_request` (node.py
lines 820-826): `idx = common_prefix_length(key, self.node_id)`, then
store `key` at `(idx, int(key[idx], 16))` if that cell is empty. -/
def op_presence_rt (selfId : NodeId) (t : Tbl) (key : NodeId) : Tbl :=
  op_rt_entry t (cpl key selfId) key

/-- Source `update_routing_table_row` (node.py lines 689-706): merge a received
row into row `row_idx`, skipping entries whose digit at `row_idx` equals
the owner's digit there, and writing only into empty cells. -/
def op_rt_row (selfId : NodeId) (t : Tbl) (rowIdx : Nat)
    (recv : List (Option NodeId)) : Tbl :=
  recv.enum.foldl
    (fun acc p =>
      match p.2 with
      | none => acc
      | some e =>
          if digitAt e rowIdx = digitAt selfId rowIdx then acc
          else writeCell acc rowIdx p.1 e)
    t

/-- Routing-table part of `_rebuild_node_state` (node.py lines 468-473):
from an all-`None` table, for each available node write it at row
`common_prefix_length(self, node)`, column given by its digit there, if
the cell is empty (first-writer-wins). -/
def op_rebuild_rt (selfId : NodeId) (avail : List NodeId) : Tbl :=
  avail.foldl
    (fun acc nid => writeCell acc (cpl selfId nid) (digitAt nid (cpl selfId nid)) nid)
    emptyTbl

/-- Protocol side condition for a received routing-table row: the row
index is a legal row; every entry is a well-formed ID that agrees with
the receiving node on at least the first `row_idx` digits (it comes from
row `row_idx` of a node sharing `row_idx` digits with the receiver, per
`_handle_join_request`, node.py lines 205-220) and sits in the column
given by its digit at `row_idx` (the sender's own table invariant). -/
def rowReqOkB (selfId : NodeId) (rowIdx : Nat)
    (recv : List (Option NodeId)) : Bool :=
  decide (rowIdx < HASH_HEX_DIGITS) &&
  recv.enum.all fun p =>
    match p.2 with
    | none => true
    | some e => ValidIdB e && decide (rowIdx ≤ cpl e selfId)
        && (e[rowIdx]? == some p.1)

/-- Protocol side condition for `UPDATE_ROUTING_TABLE_ENTRY`: the sender
(`_handle_update_presence_request`, node.py lines 828-835) sends its own
ID with `row_idx = common_prefix_length(joining, self)`, and IDs are
unique, so the index is the common-prefix length of the two distinct
well-formed IDs. -/
def entryReqOkB (selfId : NodeId) (idx : Nat) (nid : NodeId) : Bool :=
  ValidIdB nid && decide (idx = cpl selfId nid) && decide (nid ≠ selfId)

/-- Routing tables reachable on a node with ID `selfId`: empty at start,
then any sequence of row merges, single-entry updates, presence updates
and rebuilds, each under its protocol side condition. -/
inductive RTReach (selfId : NodeId) : Tbl → Prop
  | init : RTReach selfId emptyTbl
  | row (t rowIdx recv) (hok : rowReqOkB selfId rowIdx recv = true)
      (h : RTReach selfId t) : RTReach selfId (op_rt_row selfId t rowIdx recv)
  | entry (t idx nid) (hok : entryReqOkB selfId idx nid = true)
      (h : RTReach selfId t) : RTReach selfId (op_rt_entry t idx nid)
  | presence (t key) (hok : ValidIdB key = true) (hne : key ≠ selfId)
      (h : RTReach selfId t) : RTReach selfId (op_presence_rt selfId t key)
  | rebuild (t avail) (hok : avail.all (fun n => ValidIdB n && decide (n ≠ selfId)) = true)
      (h : RTReach selfId t) : RTReach selfId (op_rebuild_rt selfId avail)

/-- The populated-cell invariant: every entry is a well-formed ID whose
common-prefix length with the owner is exactly its row and whose digit at
that row is exactly its column. -/
def RTInv (selfId : NodeId) (t : Tbl) : Prop :=
  ∀ r c e, getCell t r c = some (some e) →
    ValidIdB e = true ∧ cpl selfId e = r ∧ e[r]? = some c

theorem getCell_writeCell (t : Tbl) (r c : Nat) (e : NodeId) (r' c' : Nat) :
    getCell (writeCell t r c e) r' c' = getCell t r' c' ∨
      (r' = r ∧ c' = c ∧ getCell (writeCell t r c e) r' c' = some (some e)) := by
  rcases hrow : t[r]? with _ | row
  · left; simp [writeCell, hrow]
  rcases hcell : row[c]? with _ | cur
  · left; simp [writeCell, hrow, hcell]
  rcases cur with _ | old
  case some.some =>
    left; simp [writeCell, hrow, hcell]
  case some.none =>
    have hr : r < t.length := (List.getElem?_eq_some.mp hrow).1
    have hc : c < row.length := (List.getElem?_eq_some.mp hcell).1
    have hw : writeCell t r c e = t.set r (row.set c (some e)) := by
      simp [writeCell, hrow, hcell]
    by_cases hr' : r' = r
    · subst hr'
      by_cases hc' : c' = c
      · subst hc'
        refine Or.inr ⟨rfl, rfl, ?_⟩
        simp [getCell, hw, List.getElem?_set_eq_of_lt _ hr,
          List.getElem?_set_eq_of_lt _ hc]
      · refine Or.inl ?_
        simp [getCell, hw, List.getElem?_set_eq_of_lt _ hr, hrow,
          List.getElem?_set_ne (fun h => hc' h.symm)]
    · refine Or.inl ?_
      simp [getCell, hw, List.getElem?_set_ne (fun h => hr' h.symm)]

theorem rtInv_writeCell {selfId : NodeId} {t : Tbl} {r c : Nat} {e : NodeId}
    (hInv : RTInv selfId t) (hval : ValidIdB e = true)
    (hcpl : cpl selfId e = r) (hdig : e[r]? = some c) :
    RTInv selfId (writeCell t r c e) := by
  intro r' c' e' hget
  rcases getCell_writeCell t r c e r' c' with h | ⟨hr, hc, hcell⟩
  · exact hInv r' c' e' (h ▸ hget)
  · subst hr; subst hc
    have : e' = e := by
      have := hcell ▸ hget
      simpa using this.symm
    subst this
    exact ⟨hval, hcpl, hdig⟩

theorem validIdB_length {a : NodeId} (h : ValidIdB a = true) :
    a.length = HASH_HEX_DIGITS := by
  simp [ValidIdB] at h
  exact h.1

theorem validIdB_digits {a : NodeId} (h : ValidIdB a = true) :
    ∀ d ∈ a, d < 16 := by
  simp [ValidIdB] at h
  exact h.2

theorem getElem?_digitAt {a : NodeId} {i : Nat} (h : i < a.length) :
    a[i]? = some (digitAt a i) := by
  simp [digitAt, List.getD, List.getElem?_eq_getElem h]

theorem rtInv_empty (selfId : NodeId) : RTInv selfId emptyTbl := by
  intro r c e hget
  simp only [getCell, emptyTbl, List.getElem?_replicate] at hget
  by_cases hr : r < HASH_HEX_DIGITS
  · simp only [if_pos hr, Option.bind_some] at hget
    by_cases hc : c < 2 ^ b
    · simp [List.getElem?_replicate, hc] at hget
    · simp [List.getElem?_replicate, hc] at hget
  · simp [hr] at hget

theorem rtInv_entry {selfId : NodeId} {t : Tbl} {idx : Nat} {nid : NodeId}
    (hself : ValidIdB selfId = true) (hok : entryReqOkB selfId idx nid = true)
    (hInv : RTInv selfId t) : RTInv selfId (op_rt_entry t idx nid) := by
  simp only [entryReqOkB, Bool.and_eq_true, decide_eq_true_eq] at hok
  obtain ⟨⟨hval, hidx⟩, hne⟩ := hok
  have hlen : nid.length = selfId.length := by
    rw [validIdB_length hval, validIdB_length hself]
  have hcpllt : cpl selfId nid < nid.length := by
    have h2 := cpl_lt_of_ne hlen.symm (fun h => hne h.symm)
    omega
  have hdig : nid[idx]? = some (digitAt nid idx) :=
    getElem?_digitAt (by omega)
  exact rtInv_writeCell hInv hval hidx.symm (hidx ▸ hdig)

theorem rtInv_presence {selfId : NodeId} {t : Tbl} {key : NodeId}
    (hself : ValidIdB selfId = true) (hval : ValidIdB key = true)
    (hne : key ≠ selfId) (hInv : RTInv selfId t) :
    RTInv selfId (op_presence_rt selfId t key) := by
  refine rtInv_entry hself ?_ hInv
  simp [entryReqOkB, hval, hne, cpl_comm selfId key]

theorem rtInv_row_aux (selfId : NodeId) (rowIdx : Nat)
    (hself : ValidIdB selfId = true) (hlt : rowIdx < HASH_HEX_DIGITS) :
    ∀ (l : List (Nat × Option NodeId)) (t : Tbl),
      (∀ p ∈ l, (match p.2 with
        | none => true
        | some e => ValidIdB e && decide (rowIdx ≤ cpl e selfId)
            && (e[rowIdx]? == some p.1)) = true) →
      RTInv selfId t →
      RTInv selfId (l.foldl
        (fun acc p =>
          match p.2 with
          | none => acc
          | some e =>
              if digitAt e rowIdx = digitAt selfId rowIdx then acc
              else writeCell acc rowIdx p.1 e) t) := by
  intro l
  induction l with
  | nil => intro t _ hInv; simpa using hInv
  | cons p ps ih =>
    intro t hall hInv
    have hp := hall p (by simp)
    have hps : ∀ q ∈ ps, _ := fun q hq => hall q (by simp [hq])
    simp only [List.foldl_cons]
    refine ih _ hps ?_
    rcases p with ⟨c, o⟩
    rcases o with _ | e
    · exact hInv
    · simp only at hp ⊢
      by_cases hguard : digitAt e rowIdx = digitAt selfId rowIdx
      · simpa [hguard] using hInv
      · simp only [if_neg hguard]
        simp only [Bool.and_eq_true, decide_eq_true_eq, beq_iff_eq] at hp
        obtain ⟨⟨hval, hle⟩, hcol⟩ := hp
        have helen : rowIdx < e.length := by
          rw [validIdB_length hval]; omega
        have hslen : rowIdx < selfId.length := by
          rw [validIdB_length hself]; omega
        have hdigne : e[rowIdx]? ≠ selfId[rowIdx]? := by
          rw [getElem?_digitAt helen, getElem?_digitAt hslen]
          simpa using hguard
        have hcpl : cpl e selfId = rowIdx :=
          cpl_eq_of_le_of_digit_ne hle hdigne
        exact rtInv_writeCell hInv hval (by rw [cpl_comm]; exact hcpl) hcol

theorem rtInv_row {selfId : NodeId} {t : Tbl} {rowIdx : Nat}
    {recv : List (Option NodeId)} (hself : ValidIdB selfId = true)
    (hok : rowReqOkB selfId rowIdx recv = true) (hInv : RTInv selfId t) :
    RTInv selfId (op_rt_row selfId t rowIdx recv) := by
  simp only [rowReqOkB, Bool.and_eq_true, decide_eq_true_eq] at hok
  obtain ⟨hlt, hall⟩ := hok
  rw [List.all_eq_true] at hall
  exact rtInv_row_aux selfId rowIdx hself hlt recv.enum t hall hInv

theorem rtInv_rebuild_aux (selfId : NodeId)
    (hself : ValidIdB selfId = true) :
    ∀ (avail : List NodeId) (t : Tbl),
      (∀ n ∈ avail, (ValidIdB n && decide (n ≠ selfId)) = true) →
      RTInv selfId t →
      RTInv selfId (avail.foldl
        (fun acc nid =>
          writeCell acc (cpl selfId nid) (digitAt nid (cpl selfId nid)) nid) t) := by
  intro avail
  induction avail with
  | nil => intro t _ hInv; simpa using hInv
  | cons nid ns ih =>
    intro t hall hInv
    have hn := hall nid (by simp)
    have hns : ∀ q ∈ ns, _ := fun q hq => hall q (by simp [hq])
    simp only [Bool.and_eq_true, decide_eq_true_eq] at hn
    obtain ⟨hval, hne⟩ := hn
    simp only [List.foldl_cons]
    refine ih _ hns ?_
    have hlen : selfId.length = nid.length := by
      rw [validIdB_length hval, validIdB_length hself]
    have hcpllt : cpl selfId nid < nid.length := by
      have h2 := cpl_lt_of_ne hlen (fun h => hne h.symm)
      omega
    exact rtInv_writeCell hInv hval rfl (getElem?_digitAt hcpllt)

theorem rtInv_rebuild (selfId : NodeId) (avail : List NodeId)
    (hself : ValidIdB selfId = true)
    (hok : avail.all (fun n => ValidIdB n && decide (n ≠ selfId)) = true) :
    RTInv selfId (op_rebuild_rt selfId avail) := by
  rw [List.all_eq_true] at hok
  exact rtInv_rebuild_aux selfId hself avail emptyTbl hok (rtInv_empty selfId)

theorem rtReach_inv {selfId : NodeId} {t : Tbl}
    (hself : ValidIdB selfId = true) (h : RTReach selfId t) :
    RTInv selfId t := by
  induction h with
  | init => exact rtInv_empty selfId
  | row t rowIdx recv hok hr ih => exact rtInv_row hself hok ih
  | entry t idx nid hok hr ih => exact rtInv_entry hself hok ih
  | presence t key hok hne hr ih => exact rtInv_presence hself hok hne ih
  | rebuild t avail hok hr ih => exact rtInv_rebuild selfId avail hself hok

/-!
## Leaf set (node.py)

`Lmin`/`Lmax` are fixed-size lists of `L/2` optional IDs (node.py lines
40-41).  `_update_leaf_list` (lines 953-990) inserts a key into one half;
`update_leaf_set` (lines 790-807) overwrites both halves from a request
and inserts the sender; the presence handler (lines 837-846) inserts a
joining node; `_rebuild_node_state` (lines 460-462) recomputes both
halves from the live-node registry.
-/

/-- The fold inside `_update_leaf_list` that locates the "farthest" entry
of a full leaf list: smallest first-differing-digit index against the
owner, ties broken by the larger numeric distance; accumulator starts at
`(HASH_HEX_DIGITS, -1, no index)` (node.py lines 968-981).  `None`
entries cannot occur on this path (the list had no empty slot) and are
skipped. -/
def farthestIdx (selfId : NodeId) (xs : List (Option NodeId)) :
    Option Nat × Nat × Int :=
  xs.enum.foldl
    (fun acc p =>
      match p.2 with
      | none => acc
      | some lid =>
          let h := hex_distance lid selfId
          if h.1 < acc.2.1 ∨ (h.1 = acc.2.1 ∧ (h.2 : Int) > acc.2.2) then
            (some p.1, h.1, (h.2 : Int))
          else acc)
    (none, HASH_HEX_DIGITS, (-1 : Int))

/-- Source `_update_leaf_list(leaf_list, key)` (node.py lines 953-990): return
unchanged if `key` already sits in either half; else fill the first empty
slot; else replace the farthest entry if `key` is strictly closer to the
owner (larger first-differing-digit index, or equal index and smaller
numeric distance).  `combined` is `self.Lmin + self.Lmax` at call time;
`target` is the half being updated.  The `none` replace-index case is
unreachable for the nonempty lists the node owns (Python would index
`-1`). -/
def updLL (selfId : NodeId) (combined target : List (Option NodeId))
    (key : NodeId) : List (Option NodeId) :=
  if some key ∈ combined then target
  else
    match firstNoneIdx target with
    | some i => target.set i (some key)
    | none =>
        match farthestIdx selfId target with
        | (some ri, fdd, fnd) =>
            let hd := hex_distance key selfId
            if fdd < hd.1 ∨ (hd.1 = fdd ∧ (hd.2 : Int) < fnd) then
              target.set ri (some key)
            else target
        | (none, _, _) => target

theorem mem_updLL {selfId : NodeId} {combined target : List (Option NodeId)}
    {key x : NodeId} (h : some x ∈ updLL selfId combined target key) :
    some x ∈ target ∨ x = key := by
  unfold updLL at h
  by_cases hmem : some key ∈ combined
  · simp only [if_pos hmem] at h
    exact Or.inl h
  · simp only [if_neg hmem] at h
    rcases hidx : firstNoneIdx target with _ | i
    · simp only [hidx] at h
      rcases hfar : farthestIdx selfId target with ⟨ri, fdd, fnd⟩
      rcases ri with _ | ri
      · simp only [hfar] at h
        exact Or.inl h
      · simp only [hfar] at h
        by_cases hrep : fdd < (hex_distance key selfId).1 ∨
            ((hex_distance key selfId).1 = fdd ∧
              ((hex_distance key selfId).2 : Int) < fnd)
        · simp only [if_pos hrep] at h
          rcases List.mem_or_eq_of_mem_set h with h | h
          · exact Or.inl h
          · exact Or.inr (by simpa using h)
        · simp only [if_neg hrep] at h
          exact Or.inl h
    · simp only [hidx] at h
      rcases List.mem_or_eq_of_mem_set h with h | h
      · exact Or.inl h
      · exact Or.inr (by simpa using h)

/-- A pair `(Lmin, Lmax)` of leaf-list halves. -/
abbrev LeafPair := List (Option NodeId) × List (Option NodeId)

/-- Source `update_leaf_set` (node.py lines 790-807): copy the request's halves
wholesale, then insert the sender `key` into `Lmax` if
`hex_compare(key, self.node_id)` holds, else into `Lmin`. -/
def op_update_leaf_set (selfId : NodeId) (reqLmin reqLmax : List (Option NodeId))
    (key : NodeId) : LeafPair :=
  if hex_compare key selfId then
    (reqLmin, updLL selfId (reqLmin ++ reqLmax) reqLmax key)
  else
    (updLL selfId (reqLmin ++ reqLmax) reqLmin key, reqLmax)

/-- Leaf-set part of `_handle_update_presence_request` (node.py lines
837-846): insert the joining node into the half on its side, if not
already there. -/
def op_presence_leaf (selfId : NodeId) (p : LeafPair) (key : NodeId) : LeafPair :=
  if hex_compare key selfId then
    if some key ∈ p.2 then p else (p.1, updLL selfId (p.1 ++ p.2) p.2 key)
  else
    if some key ∈ p.1 then p else (updLL selfId (p.1 ++ p.2) p.1 key, p.2)

/-- Source `_find_closest_lower_nodes` (node.py lines 477-493): the available
IDs numerically below the owner, sorted by ascending distance, truncated
to `L/2` slots and padded with `None`.  Python compares the fixed-width
lowercase hex strings, which orders them exactly by numeric value. -/
def rebuildLmin (selfId : NodeId) (avail : List NodeId) : List (Option NodeId) :=
  padTo (L / 2)
    ((sortByCmp
        (fun n m => decide (idVal selfId - idVal n < idVal selfId - idVal m))
        (avail.filter fun n => decide (idVal n < idVal selfId))).take (L / 2))

/-- Source `_find_closest_higher_nodes` (node.py lines 495-513), symmetrically. -/
def rebuildLmax (selfId : NodeId) (avail : List NodeId) : List (Option NodeId) :=
  padTo (L / 2)
    ((sortByCmp
        (fun n m => decide (idVal n - idVal selfId < idVal m - idVal selfId))
        (avail.filter fun n => decide (idVal selfId < idVal n))).take (L / 2))

/-- Leaf-set part of `_rebuild_node_state` (node.py lines 460-462). -/
def op_rebuild_leaf (selfId : NodeId) (avail : List NodeId) : LeafPair :=
  (rebuildLmin selfId avail, rebuildLmax selfId avail)

/-- Protocol side condition for an `UPDATE_LEAF_SET` request, as
guaranteed by `_handle_join_request` (node.py lines 224-240): the request
carries the leaf set of the live node `Z = key` that is numerically
closest to the receiver, so its entries sit strictly on their sides of
`key`, none of them is the receiver (whose ID is new and unique), no live
ID lies strictly between receiver and `key` (otherwise `Z` would not have
been the routing terminal), and `key` differs from the receiver. -/
def leafReqOkB (selfId key : NodeId)
    (reqLmin reqLmax : List (Option NodeId)) : Bool :=
  decide (idVal key ≠ idVal selfId) &&
  (reqLmin.all fun o =>
    match o with
    | none => true
    | some e => decide (idVal e < idVal key) && decide (idVal e ≠ idVal selfId)
        && !(decide (min (idVal selfId) (idVal key) < idVal e)
              && decide (idVal e < max (idVal selfId) (idVal key)))) &&
  (reqLmax.all fun o =>
    match o with
    | none => true
    | some e => decide (idVal key < idVal e) && decide (idVal e ≠ idVal selfId)
        && !(decide (min (idVal selfId) (idVal key) < idVal e)
              && decide (idVal e < max (idVal selfId) (idVal key))))

/-- Leaf-set pairs reachable on a node with ID `selfId`: both halves all
`None` at start (node.py lines 40-41), then any sequence of presence
updates, leaf-set updates (also performing the leaf-merge step of a
join) and rebuilds, each under its protocol side condition. -/
inductive LeafReach (selfId : NodeId) : LeafPair → Prop
  | init : LeafReach selfId
      (List.replicate (L / 2) none, List.replicate (L / 2) none)
  | presence (p key) (hne : idVal key ≠ idVal selfId)
      (h : LeafReach selfId p) :
      LeafReach selfId (op_presence_leaf selfId p key)
  | leafUpdate (p reqLmin reqLmax key)
      (hok : leafReqOkB selfId key reqLmin reqLmax = true)
      (h : LeafReach selfId p) :
      LeafReach selfId (op_update_leaf_set selfId reqLmin reqLmax key)
  | rebuild (p avail) (h : LeafReach selfId p) :
      LeafReach selfId (op_rebuild_leaf selfId avail)

/-- Sidedness invariant for the two halves: every `Lmin` entry is
numerically below the owner, every `Lmax` entry above. -/
def LeafOrder (selfId : NodeId) (p : LeafPair) : Prop :=
  (∀ x, some x ∈ p.1 → idVal x < idVal selfId) ∧
  (∀ y, some y ∈ p.2 → idVal selfId < idVal y)

theorem leafOrder_rebuild (selfId : NodeId) (avail : List NodeId) :
    LeafOrder selfId (op_rebuild_leaf selfId avail) := by
  constructor
  · intro x hx
    have hmem := mem_padTo hx
    have := List.mem_of_mem_take hmem
    have := mem_sortByCmp this
    have := List.mem_filter.mp this
    simpa using this.2
  · intro y hy
    have hmem := mem_padTo hy
    have := List.mem_of_mem_take hmem
    have := mem_sortByCmp this
    have := List.mem_filter.mp this
    simpa using this.2

theorem leafOrder_reach {selfId : NodeId} {p : LeafPair}
    (h : LeafReach selfId p) : LeafOrder selfId p := by
  induction h with
  | init =>
      constructor <;> intro x hx <;>
        exact absurd (List.eq_of_mem_replicate hx) (by simp)
  | presence p key hne h ih =>
      obtain ⟨ihMin, ihMax⟩ := ih
      unfold op_presence_leaf
      by_cases hcmp : hex_compare key selfId
      · simp only [if_pos hcmp]
        by_cases hmem : some key ∈ p.2
        · simpa [hmem] using ⟨ihMin, ihMax⟩
        · simp only [if_neg hmem]
          refine ⟨ihMin, ?_⟩
          intro y hy
          rcases mem_updLL hy with hy | hy
          · exact ihMax y hy
          · subst hy
            simp only [hex_compare, decide_eq_true_eq] at hcmp
            omega
      · simp only [if_neg hcmp]
        by_cases hmem : some key ∈ p.1
        · simpa [hmem] using ⟨ihMin, ihMax⟩
        · simp only [if_neg hmem]
          refine ⟨?_, ihMax⟩
          intro x hx
          rcases mem_updLL hx with hx | hx
          · exact ihMin x hx
          · subst hx
            simp only [hex_compare, decide_eq_true_eq] at hcmp
            omega
  | leafUpdate p reqLmin reqLmax key hok h ih =>
      simp only [leafReqOkB, Bool.and_eq_true, decide_eq_true_eq] at hok
      obtain ⟨⟨hkne, hmins⟩, hmaxs⟩ := hok
      rw [List.all_eq_true] at hmins hmaxs
      have hminSide : ∀ x, some x ∈ reqLmin → idVal x < idVal selfId := by
        intro x hx
        have := hmins (some x) hx
        simp only [Bool.and_eq_true, Bool.not_eq_true', Bool.and_eq_false_iff,
          decide_eq_true_eq, decide_eq_false_iff_not] at this
        obtain ⟨⟨hlt, hne⟩, hnb⟩ := this
        rcases hnb with hnb | hnb <;> omega
      have hmaxSide : ∀ y, some y ∈ reqLmax → idVal selfId < idVal y := by
        intro y hy
        have := hmaxs (some y) hy
        simp only [Bool.and_eq_true, Bool.not_eq_true', Bool.and_eq_false_iff,
          decide_eq_true_eq, decide_eq_false_iff_not] at this
        obtain ⟨⟨hlt, hne⟩, hnb⟩ := this
        rcases hnb with hnb | hnb <;> omega
      unfold op_update_leaf_set
      by_cases hcmp : hex_compare key selfId
      · simp only [if_pos hcmp]
        refine ⟨hminSide, ?_⟩
        intro y hy
        rcases mem_updLL hy with hy | hy
        · exact hmaxSide y hy
        · subst hy
          simp only [hex_compare, decide_eq_true_eq] at hcmp
          omega
      · simp only [if_neg hcmp]
        refine ⟨?_, hmaxSide⟩
        intro x hx
        rcases mem_updLL hx with hx | hx
        · exact hminSide x hx
        · subst hx
          simp only [hex_compare, decide_eq_true_eq] at hcmp
          omega
  | rebuild p avail h ih => exact leafOrder_rebuild selfId avail

/-!
## Pastry node state and next-hop selection (node.py)
-/

/-- The observable state of a `PastryNode` used by the embedded
handlers: ID, topological position, routing table, leaf-set halves,
neighborhood set and KD-Tree store (node.py lines 25-49). -/
structure PastryState where
  node_id : NodeId
  position : ℚ
  routing_table : Tbl
  Lmin : List (Option NodeId)
  Lmax : List (Option NodeId)
  neighborhood_set : List (Option NodeId)
  kd_tree : Option KDStore

/-- Source `_in_leaf_set` (node.py lines 850-857): membership of the key in
either leaf half (`None` entries never match a key). -/
def in_leaf_set (s : PastryState) (key : NodeId) : Bool :=
  decide (some key ∈ s.Lmin ∨ some key ∈ s.Lmax)

/-- One comparison step of `_find_closest_leaf_id` (node.py lines
865-889): the accumulator `(closest_id, diff_digit_idx, num_dist)` is
replaced when the leaf has a larger first-differing-digit index against
the key, or an equal index and a smaller numeric distance. -/
def leafStep (key : NodeId) (acc : NodeId × Nat × Nat)
    (leaf : Option NodeId) : NodeId × Nat × Nat :=
  match leaf with
  | none => acc
  | some lf =>
      let hd := hex_distance lf key
      if acc.2.1 < hd.1 ∨ (hd.1 = acc.2.1 ∧ hd.2 < acc.2.2) then
        (lf, hd.1, hd.2)
      else acc

/-- Source `_find_closest_leaf_id(key)` (node.py lines 859-891): start from the
owner and scan `Lmin` then `Lmax`, keeping the entry preferred by
`leafStep`. -/
def find_closest_leaf_id (s : PastryState) (key : NodeId) : NodeId :=
  ((s.Lmin ++ s.Lmax).foldl (leafStep key)
    (s.node_id, hex_distance s.node_id key)).1

/-- Source `_is_closer_node(target, key, l, curr)` (node.py lines 927-951). -/
def is_closer (target key : NodeId) (l : Nat) (curr : NodeId) : Bool :=
  decide (l ≤ cpl target key) &&
  (decide ((hex_distance curr key).1 < (hex_distance target key).1) ||
    (((hex_distance target key).1 == (hex_distance curr key).1) &&
      decide ((hex_distance target key).2 < (hex_distance curr key).2)))

/-- First non-`None` entry satisfying a predicate, as the early-return
loops of `_find_closest_node_id_all`. -/
def optFind (p : NodeId → Bool) : List (Option NodeId) → Option NodeId
  | [] => none
  | none :: xs => optFind p xs
  | some x :: xs => if p x then some x else optFind p xs

/-- Source `_find_closest_node_id_all(key)` (node.py lines 893-925): scan
`Lmin`, `Lmax`, the neighborhood set and the routing table in row-major
order for the first entry closer to the key than the owner; default to
the owner.  (The Python loop reads `len(routing_table[0])` columns of
every row; all rows have `2 ^ b` cells, so this equals row-major
flattening.) -/
def find_closest_node_id_all (s : PastryState) (key : NodeId) : NodeId :=
  let l := cpl s.node_id key
  match optFind (fun t => is_closer t key l s.node_id)
      (s.Lmin ++ s.Lmax ++ s.neighborhood_set ++ s.routing_table.flatten) with
  | some t => t
  | none => s.node_id

/-- Source `_find_next_hop(key)` (node.py lines 630-651): if the key is in the
leaf set, answer the closest leaf; otherwise read routing-table cell
`(common_prefix_length(self, key), int(key[i], 16))` — Python raises
`IndexError` when that row (or key digit) does not exist — and fall back
to the full scan when the cell is empty. -/
def find_next_hop (s : PastryState) (key : NodeId) : Except PyError NodeId :=
  if in_leaf_set s key then .ok (find_closest_leaf_id s key)
  else
    match s.routing_table[cpl s.node_id key]? with
    | none => .error .indexError
    | some row =>
        match key[cpl s.node_id key]? with
        | none => .error .indexError
        | some d =>
            match row[d]? with
            | none => .error .indexError
            | some none => .ok (find_closest_node_id_all s key)
            | some (some nh) => .ok nh

/-- Comparison step of `specClosestLeaf`: prefer the candidate that is
numerically closer to the key, ties broken by the larger common-prefix
length with the key. -/
def specLeafStep (key best c : NodeId) : NodeId :=
  if decide (Nat.dist (idVal c) (idVal key) < Nat.dist (idVal best) (idVal key)) ||
      ((Nat.dist (idVal c) (idVal key) == Nat.dist (idVal best) (idVal key)) &&
        decide (cpl best key < cpl c key)) then c
  else best

/-- Written from the spec's words, for comparison with `find_next_hop`:
among the owner and the leaf-set entries, the identifier numerically
closest to the key, ties broken by the larger common-prefix length with
the key (first candidate wins on a full tie). -/
def specClosestLeaf (s : PastryState) (key : NodeId) : NodeId :=
  ((s.Lmin ++ s.Lmax).filterMap (fun o => o)).foldl (specLeafStep key) s.node_id

/-- Written from the spec's words: the key falls within the span of the
leaf set (between the minimum of `Lmin` and the maximum of `Lmax`) or
the leaf set contains the key. -/
def specInSpanOrMember (s : PastryState) (key : NodeId) : Bool :=
  match ((s.Lmin.filterMap (fun o => o)).map idVal).min?,
      ((s.Lmax.filterMap (fun o => o)).map idVal).max? with
  | some lo, some hi =>
      (decide (lo ≤ idVal key) && decide (idVal key ≤ hi)) || in_leaf_set s key
  | _, _ => in_leaf_set s key

/- Facts about `_find_closest_leaf_id` and `specClosestLeaf` when the
key itself is a member of the leaf set. -/

theorem leafStep_fixed (key : NodeId) (lf : Option NodeId) :
    leafStep key (key, key.length, 0) lf = (key, key.length, 0) := by
  cases lf with
  | none => rfl
  | some x =>
      have hle := cpl_le_right x key
      simp only [leafStep, hex_distance]
      rw [if_neg]
      push_neg
      constructor
      · omega
      · intro _; omega

theorem foldl_leafStep_fixed (key : NodeId) :
    ∀ xs : List (Option NodeId),
      xs.foldl (leafStep key) (key, key.length, 0) = (key, key.length, 0) := by
  intro xs
  induction xs with
  | nil => rfl
  | cons lf xs ih => simp [List.foldl_cons, leafStep_fixed, ih]

/-- Invariant of the `_find_closest_leaf_id` accumulator: it records the
`hex_distance` of its own champion, whose width matches the key. -/
def accGood (key : NodeId) (acc : NodeId × Nat × Nat) : Prop :=
  acc.1.length = key.length ∧ acc.2.1 = cpl acc.1 key ∧
    acc.2.2 = Nat.dist (idVal acc.1) (idVal key)

theorem leafStep_good {key : NodeId} {acc : NodeId × Nat × Nat}
    {lf : Option NodeId} (hacc : accGood key acc)
    (hlf : ∀ x, lf = some x → x.length = key.length) :
    accGood key (leafStep key acc lf) := by
  cases lf with
  | none => exact hacc
  | some x =>
      simp only [leafStep, hex_distance]
      by_cases hc : acc.2.1 < cpl x key ∨
          (cpl x key = acc.2.1 ∧ Nat.dist (idVal x) (idVal key) < acc.2.2)
      · rw [if_pos hc]
        exact ⟨hlf x rfl, rfl, rfl⟩
      · rw [if_neg hc]
        exact hacc

theorem leafStep_key {key : NodeId} {acc : NodeId × Nat × Nat}
    (hacc : accGood key acc) :
    leafStep key acc (some key) = (key, key.length, 0) := by
  obtain ⟨hlen, hidx, hdist⟩ := hacc
  simp only [leafStep, hex_distance, cpl_self, Nat.dist_self]
  by_cases hc : acc.2.1 < key.length
  · rw [if_pos (Or.inl hc)]
  · have hle : acc.2.1 ≤ key.length := hidx ▸ cpl_le_right acc.1 key
    have heq : acc.2.1 = key.length := by omega
    have hacc1 : acc.1 = key := by
      refine eq_of_cpl_eq_length acc.1 key hlen ?_
      omega
    have hzero : acc.2.2 = 0 := by
      rw [hdist, hacc1, Nat.dist_self]
    have hcond : ¬(acc.2.1 < key.length ∨ (key.length = acc.2.1 ∧ 0 < acc.2.2)) := by
      push_neg
      exact ⟨by omega, fun _ => by omega⟩
    rw [if_neg hcond]
    rcases acc with ⟨a1, a2, a3⟩
    simp only at hacc1 heq hzero
    rw [hacc1, heq, hzero]

theorem foldl_leafStep_good {key : NodeId} :
    ∀ (xs : List (Option NodeId)) (acc : NodeId × Nat × Nat),
      accGood key acc →
      (∀ x, some x ∈ xs → x.length = key.length) →
      accGood key (xs.foldl (leafStep key) acc) := by
  intro xs
  induction xs with
  | nil => intro acc hacc _; simpa using hacc
  | cons lf ls ih =>
      intro acc hacc hall
      simp only [List.foldl_cons]
      refine ih _ (leafStep_good hacc ?_) ?_
      · intro x hx; subst hx; exact hall x (by simp)
      · intro x hx; exact hall x (by simp [hx])

theorem find_closest_leaf_id_of_mem {s : PastryState} {key : NodeId}
    (hmem : some key ∈ s.Lmin ++ s.Lmax)
    (hnode : s.node_id.length = key.length)
    (hleaves : ∀ x, some x ∈ s.Lmin ++ s.Lmax → x.length = key.length) :
    find_closest_leaf_id s key = key := by
  obtain ⟨l1, l2, hsplit⟩ := List.append_of_mem hmem
  unfold find_closest_leaf_id
  rw [hsplit, List.foldl_append, List.foldl_cons]
  have hgood1 : accGood key (l1.foldl (leafStep key)
      (s.node_id, hex_distance s.node_id key)) := by
    refine foldl_leafStep_good l1 _ ⟨hnode, rfl, rfl⟩ ?_
    intro x hx
    exact hleaves x (by rw [hsplit]; simp [hx])
  rw [leafStep_key hgood1, foldl_leafStep_fixed]

theorem specLeafStep_fixed (key c : NodeId) : specLeafStep key key c = key := by
  unfold specLeafStep
  have h1 := cpl_le_right c key
  have hcond : (decide (Nat.dist (idVal c) (idVal key) < Nat.dist (idVal key) (idVal key)) ||
      ((Nat.dist (idVal c) (idVal key) == Nat.dist (idVal key) (idVal key)) &&
        decide (cpl key key < cpl c key))) = false := by
    rw [Bool.or_eq_false_iff, Bool.and_eq_false_iff]
    constructor
    · simp [Nat.dist_self]
    · right
      rw [decide_eq_false_iff_not, cpl_self]
      omega
  rw [hcond]
  rfl

theorem specLeafStep_key {key best : NodeId}
    (hkey : ValidIdB key = true) (hbest : ValidIdB best = true) :
    specLeafStep key best key = key := by
  by_cases hbk : best = key
  · rw [hbk]
    exact specLeafStep_fixed key key
  · have hne : idVal best ≠ idVal key := by
      refine idVal_ne_of_ne best key ?_ (validIdB_digits hbest) (validIdB_digits hkey) hbk
      rw [validIdB_length hbest, validIdB_length hkey]
    have hdistpos : 0 < Nat.dist (idVal key) (idVal best) := by
      rcases Nat.eq_zero_or_pos (Nat.dist (idVal key) (idVal best)) with h | h
      · exact absurd (Nat.eq_of_dist_eq_zero h).symm hne
      · exact h
    unfold specLeafStep
    have hcond : (decide (Nat.dist (idVal key) (idVal key) < Nat.dist (idVal best) (idVal key)) ||
        ((Nat.dist (idVal key) (idVal key) == Nat.dist (idVal best) (idVal key)) &&
          decide (cpl best key < cpl key key))) = true := by
      rw [Bool.or_eq_true]
      left
      rw [decide_eq_true_eq, Nat.dist_self, Nat.dist_comm]
      exact hdistpos
    rw [hcond]
    rfl

theorem foldl_specLeafStep_fixed (key : NodeId) :
    ∀ xs : List NodeId, xs.foldl (specLeafStep key) key = key := by
  intro xs
  induction xs with
  | nil => rfl
  | cons c cs ih =>
      simp only [List.foldl_cons]
      rw [specLeafStep_fixed key c]
      exact ih

theorem foldl_specLeafStep_valid {key : NodeId} :
    ∀ (xs : List NodeId) (acc : NodeId), ValidIdB acc = true →
      (∀ x ∈ xs, ValidIdB x = true) →
      ValidIdB (xs.foldl (specLeafStep key) acc) = true := by
  intro xs
  induction xs with
  | nil => intro acc hacc _; simpa using hacc
  | cons c cs ih =>
      intro acc hacc hall
      simp only [List.foldl_cons]
      refine ih _ ?_ (fun x hx => hall x (by simp [hx]))
      unfold specLeafStep
      split
      · exact hall c (by simp)
      · exact hacc

theorem specClosestLeaf_of_mem {s : PastryState} {key : NodeId}
    (hmem : some key ∈ s.Lmin ++ s.Lmax)
    (hkey : ValidIdB key = true) (hnode : ValidIdB s.node_id = true)
    (hleaves : ∀ x, some x ∈ s.Lmin ++ s.Lmax → ValidIdB x = true) :
    specClosestLeaf s key = key := by
  have hkeymem : key ∈ (s.Lmin ++ s.Lmax).filterMap (fun o => o) :=
    List.mem_filterMap.mpr ⟨some key, hmem, rfl⟩
  have hcands : ∀ x ∈ (s.Lmin ++ s.Lmax).filterMap (fun o => o),
      ValidIdB x = true := by
    intro x hx
    rcases List.mem_filterMap.mp hx with ⟨o, ho, he⟩
    cases o with
    | none => exact absurd he (by simp)
    | some y =>
        have hyx : y = x := by simpa using he
        exact hyx ▸ hleaves y ho
  obtain ⟨l1, l2, hsplit⟩ := List.append_of_mem hkeymem
  unfold specClosestLeaf
  rw [hsplit, List.foldl_append, List.foldl_cons]
  have hl1 : ∀ x ∈ l1, ValidIdB x = true := by
    intro x hx; exact hcands x (by rw [hsplit]; simp [hx])
  have hfold1 : ValidIdB (l1.foldl (specLeafStep key) s.node_id) = true :=
    foldl_specLeafStep_valid l1 s.node_id hnode hl1
  rw [specLeafStep_key hkey hfold1]
  exact foldl_specLeafStep_fixed key l2

/-!
## Full state rebuild (C9) and the request dispatcher
-/

/-- The coordinator's registry of live nodes: IDs with their positions,
in dictionary iteration order (`self.network.nodes`). -/
abbrev Registry := List (NodeId × ℚ)

/-- Source list comprehension
`[node_id for node_id in self.network.nodes if node_id != self.node_id]`
(node.py line 458). -/
def availIds (selfId : NodeId) (reg : Registry) : List NodeId :=
  (reg.map fun p => p.1).filter fun n => decide (n ≠ selfId)

/-- Position of a registered node (`self.network.nodes[n].position`);
the junk value 0 is unreachable because `n` always comes from `reg`. -/
def posOf (reg : Registry) (n : NodeId) : ℚ :=
  ((reg.find? fun p => decide (p.1 = n)).map fun p => p.2).getD 0

/-- Source `_update_closest_neighbors` (node.py lines 515-523): all other
registered nodes sorted by topological distance to the owner, truncated
to the 3 closest. -/
def rebuildNbhd (selfId : NodeId) (selfPos : ℚ) (reg : Registry) :
    List (Option NodeId) :=
  ((sortByCmp
      (fun n m => decide (topological_distance selfPos (posOf reg n) <
        topological_distance selfPos (posOf reg m)))
      (availIds selfId reg)).take 3).map some

/-- Source `_rebuild_node_state` (node.py lines 451-475): recompute `Lmin`,
`Lmax`, the neighborhood set and the routing table from the registry;
the node's ID, position and KD-Tree store are untouched. -/
def op_rebuild_full (reg : Registry) (s : PastryState) : PastryState :=
  let avail := availIds s.node_id reg
  { s with
    Lmin := rebuildLmin s.node_id avail
    Lmax := rebuildLmax s.node_id avail
    neighborhood_set := rebuildNbhd s.node_id s.position reg
    routing_table := op_rebuild_rt s.node_id avail }

/-- An inbound request, as deserialized by `_handle_request` (node.py
lines 130-178); each constructor carries the fields the handler reads
(the update-key criteria and data only reach the KD-Tree call, which the
store model shows is never executed successfully). -/
inductive Request
  | insertKey (key : NodeId) (point : List ℚ) (review country : String)
      (hops : List NodeId)
  | deleteKey (key : NodeId) (hops : List NodeId)
  | lookupReq (key : NodeId) (lower upper : List ℚ) (n : Nat)
      (hops : List NodeId)
  | updateKey (key : NodeId) (hops : List NodeId)
  | nodeJoin (newId : NodeId) (hops : List NodeId)
  | nodeLeave (leavingId : NodeId) (hops : List NodeId)
  | distanceReq (pos : ℚ) (hops : List NodeId)
  | getLeafSet
  | updateRoutingRow (rowIdx : Nat) (row : List (Option NodeId))
      (hops : List NodeId)
  | updateRoutingEntry (rowIdx : Nat) (nid : NodeId) (hops : List NodeId)
  | updateLeafSetReq (lmin lmax : List (Option NodeId)) (key : NodeId)
      (hops : List NodeId)
  | updatePresence (nid : NodeId) (hops : List NodeId)
  | unknownOp (hops : List NodeId)

/-- The `hops` list carried by a request (`request.get("hops", [])`;
the `GET_LEAF_SET` request of `_repair_leaf_set` carries none). -/
def reqHops : Request → List NodeId
  | .insertKey _ _ _ _ h => h
  | .deleteKey _ h => h
  | .lookupReq _ _ _ _ h => h
  | .updateKey _ h => h
  | .nodeJoin _ h => h
  | .nodeLeave _ h => h
  | .distanceReq _ h => h
  | .getLeafSet => []
  | .updateRoutingRow _ _ h => h
  | .updateRoutingEntry _ _ h => h
  | .updateLeafSetReq _ _ _ h => h
  | .updatePresence _ h => h
  | .unknownOp h => h

/-- The response a node generates locally for an inbound request,
together with the request's `hops` list after `_handle_request` appended
the receiver's ID (node.py lines 130-178).  `none` means the node sends
no response of its own: it either forwarded the request (the reply then
comes from the remote handler and travels back unchanged) or raised,
in which case `_handle_request` swallows the exception and the client
gets nothing.  The key handlers answer locally exactly when
`self._in_leaf_set(key) or next_hop_id == self.node_id`; `NODE_LEAVE`
(`_handle_leave_request`, node.py lines 418-449) mutates the shared
registry and rebuilds affected peers — state effects on other nodes,
outside this per-node response model — and always acks with a
status/message dictionary. -/
def local_response (s : PastryState) (req : Request) :
    List NodeId × Option PyResp :=
  let hops' := reqHops req ++ [s.node_id]
  match req with
  | .insertKey key point review _ _ =>
      (hops',
        match find_next_hop s key with
        | .error _ => none
        | .ok nh =>
            if in_leaf_set s key || decide (nh = s.node_id) then
              match handle_insert_responsible s.kd_tree key point review s.node_id with
              | .error _ => none
              | .ok (_, r) => some (.dict r)
            else none)
  | .deleteKey key _ =>
      (hops',
        match find_next_hop s key with
        | .error _ => none
        | .ok nh =>
            if in_leaf_set s key || decide (nh = s.node_id) then
              match handle_delete_responsible s.kd_tree key with
              | .error _ => none
              | .ok (_, r) => some (.dict r)
            else none)
  | .lookupReq key lower upper _ _ =>
      (hops',
        match find_next_hop s key with
        | .error _ => none
        | .ok nh =>
            if in_leaf_set s key || decide (nh = s.node_id) then
              match handle_lookup_responsible s.kd_tree key lower upper with
              | .error _ => none
              | .ok r => some (.dict r)
            else none)
  | .updateKey key _ =>
      (hops',
        match find_next_hop s key with
        | .error _ => none
        | .ok nh =>
            if in_leaf_set s key || decide (nh = s.node_id) then
              match handle_update_responsible s.kd_tree key
                  (hops' ++ [s.node_id]) with
              | .error _ => none
              | .ok (_, r) => some (.dict r)
            else none)
  | .nodeJoin newId _ =>
      (hops',
        match find_next_hop s newId with
        | .error _ => none
        | .ok nh =>
            if decide (nh = s.node_id) then some (.dict { status := some "success" })
            else none)
  | .nodeLeave leavingId _ =>
      (hops', some (.dict
        { status := some "success"
          message := some ("Processed NODE_LEAVE for " ++ idStr leavingId ++ ".") }))
  | .distanceReq pos _ =>
      (hops', some (.dict
        { distance := some (topological_distance s.position pos)
          neighborhood_set := some s.neighborhood_set }))
  | .getLeafSet =>
      (hops', some (.dict
        { status := some "success"
          leafSetF := some (s.Lmin, s.Lmax) }))
  | .updateRoutingRow _ _ _ => (hops', some .noneV)
  | .updateRoutingEntry _ _ _ => (hops', some .noneV)
  | .updateLeafSetReq _ _ _ _ => (hops', some .noneV)
  | .updatePresence _ _ => (hops', some .noneV)
  | .unknownOp _ =>
      (hops', some (.dict
        { status := some "failure", message := some "Unknown operation" }))

/-- Content operations: the ones whose handlers build status/message
response dictionaries (the four key operations, the always-acking
`NODE_LEAVE`, and the unknown-operation fallback). -/
def isContentOp : Request → Bool
  | .insertKey _ _ _ _ _ => true
  | .deleteKey _ _ => true
  | .lookupReq _ _ _ _ _ => true
  | .updateKey _ _ => true
  | .nodeLeave _ _ => true
  | .unknownOp _ => true
  | _ => false

/-- The `UPDATE_KEY` requests, the only ones whose responses carry `hops`. -/
def isUpdateKeyOp : Request → Bool
  | .updateKey _ _ => true
  | _ => false

/-- Shared helper: both branches of the responsible-node insert die with
`TypeError` — the constructor call on the unexpected `country_keys`
keyword, the `add_point` call on its extra positional argument. -/
theorem handle_insert_responsible_error (kd : Option KDStore) (key : NodeId)
    (point : List ℚ) (review : String) (selfId : NodeId) :
    handle_insert_responsible kd key point review selfId = .error .typeError := by
  cases kd <;> rfl

/-!
## Claim theorems
-/

/-- Concrete node state for claim C1: owner `8000`, leaf set
`Lmin = [7fff, None]`, `Lmax = [9000, None]`, routing-table entry
`(1, a) = 8a00`. -/
def c1State : PastryState :=
  { node_id := [8, 0, 0, 0]
    position := 0
    routing_table := op_rt_entry emptyTbl 1 [8, 10, 0, 0]
    Lmin := [some [7, 15, 15, 15], none]
    Lmax := [some [9, 0, 0, 0], none]
    neighborhood_set := []
    kd_tree := none }

/-- Concrete target key `8abc` for claim C1. -/
def c1Key : NodeId := [8, 10, 11, 12]

/-- C1 (counterexample): at node `8000` the key `8abc` lies within the
span of the leaf set (`7fff ≤ 8abc ≤ 9000`) but is not a member, so
`_find_next_hop` takes the routing-table branch and answers `8a00` —
not the leaf `9000` that the spec's closest-leaf rule selects.  The
membership check `_in_leaf_set` never tests the span. -/
theorem next_hop_span_counterexample :
    specInSpanOrMember c1State c1Key = true ∧
    find_next_hop c1State c1Key = Except.ok [8, 10, 0, 0] ∧
    specClosestLeaf c1State c1Key = [9, 0, 0, 0] ∧
    ([8, 10, 0, 0] : NodeId) ≠ [9, 0, 0, 0] :=
  ⟨by decide, rfl, rfl, by decide⟩

/-- C1 (amended): when the leaf set *contains* `key` (the condition the
code actually tests), `_find_next_hop` returns the leaf whose identifier
is numerically closest to `key` with ties broken by the larger
common-prefix length — namely `key`'s own entry, the unique distance-0
candidate; the owner is returned only when it equals `key`. -/
theorem next_hop_leaf_member_closest (s : PastryState) (key : NodeId)
    (hmem : in_leaf_set s key = true)
    (hkey : ValidIdB key = true) (hnode : ValidIdB s.node_id = true)
    (hleaves : (s.Lmin ++ s.Lmax).all
      (fun o => o.elim true ValidIdB) = true) :
    find_next_hop s key = Except.ok key ∧ specClosestLeaf s key = key := by
  have hmem' : some key ∈ s.Lmin ++ s.Lmax := by
    have := of_decide_eq_true hmem
    simpa [List.mem_append] using this
  have hleaves' : ∀ x, some x ∈ s.Lmin ++ s.Lmax → ValidIdB x = true := by
    intro x hx
    have := (List.all_eq_true.mp hleaves) (some x) hx
    simpa using this
  constructor
  · unfold find_next_hop
    rw [if_pos hmem]
    congr 1
    refine find_closest_leaf_id_of_mem hmem' ?_ ?_
    · rw [validIdB_length hnode, validIdB_length hkey]
    · intro x hx
      rw [validIdB_length (hleaves' x hx), validIdB_length hkey]
  · exact specClosestLeaf_of_mem hmem' hkey hnode hleaves'

/-- Concrete state for the C1 witness: key `1234` is a member of the
owner `0000`'s leaf set. -/
def c1WitState : PastryState :=
  { node_id := [0, 0, 0, 0]
    position := 0
    routing_table := emptyTbl
    Lmin := [none, none]
    Lmax := [some [1, 2, 3, 4], none]
    neighborhood_set := []
    kd_tree := none }

/-- C1 (witness): the amended theorem evaluated at a concrete member
key. -/
theorem next_hop_leaf_member_closest_witness :
    find_next_hop c1WitState [1, 2, 3, 4] = Except.ok [1, 2, 3, 4] ∧
    specClosestLeaf c1WitState [1, 2, 3, 4] = [1, 2, 3, 4] :=
  next_hop_leaf_member_closest c1WitState [1, 2, 3, 4]
    (by decide) (by decide) (by decide) (by decide)

/-- Concrete store for claim C2: a single record at the box corner. -/
def c2Store : KDStore := { points := [[0, 0, 0]], reviews := ["r"] }

/-- C2 (code bug): `KDTree.search` first queries a sphere whose radius is
the *maximum half-width* of the box, which does not cover the box's
corners.  For the box `[0,2]^3` the stored corner point `(0,0,0)` sits at
squared distance 3 from the center `(1,1,1)` while the sphere allows
only 1, so the search returns nothing even though the point lies inside
the box that the docstring and spec promise to report exactly. -/
theorem kd_search_misses_box_point :
    kd_search c2Store [0, 0, 0] [2, 2, 2] = Except.ok ([], []) ∧
    specBoxContents c2Store [0, 0, 0] [2, 2, 2] = [([0, 0, 0], "r")] := by
  constructor
  · norm_num [kd_search, c2Store, distSq, maxQ, inBox]
  · norm_num [specBoxContents, c2Store, inBox, List.range_succ]

/-- C3: in every reachable leaf-set state, `Lmin` entries are
numerically below the owner, `Lmax` entries above, the two halves are
disjoint, and the owner's own ID appears in neither half. -/
theorem pastry_leaf_set_invariant (selfId : NodeId) (p : LeafPair)
    (h : LeafReach selfId p) :
    (∀ x, some x ∈ p.1 → idVal x < idVal selfId) ∧
    (∀ y, some y ∈ p.2 → idVal selfId < idVal y) ∧
    (∀ x, some x ∈ p.1 → some x ∉ p.2) ∧
    some selfId ∉ p.1 ∧ some selfId ∉ p.2 := by
  obtain ⟨h1, h2⟩ := leafOrder_reach h
  refine ⟨h1, h2, ?_, ?_, ?_⟩
  · intro x hx hx2
    have ha := h1 x hx
    have hb := h2 x hx2
    omega
  · intro hs
    have := h1 selfId hs
    omega
  · intro hs
    have := h2 selfId hs
    omega

/-- C3 (witness): the invariant holds after a presence update inserting
node `3000` at owner `5000`, starting from the empty leaf set. -/
theorem pastry_leaf_set_invariant_witness :
    (∀ x, some x ∈ (op_presence_leaf [5, 0, 0, 0]
        (List.replicate (L / 2) none, List.replicate (L / 2) none)
        [3, 0, 0, 0]).1 → idVal x < idVal [5, 0, 0, 0]) ∧
    (∀ y, some y ∈ (op_presence_leaf [5, 0, 0, 0]
        (List.replicate (L / 2) none, List.replicate (L / 2) none)
        [3, 0, 0, 0]).2 → idVal [5, 0, 0, 0] < idVal y) ∧
    (∀ x, some x ∈ (op_presence_leaf [5, 0, 0, 0]
        (List.replicate (L / 2) none, List.replicate (L / 2) none)
        [3, 0, 0, 0]).1 →
      some x ∉ (op_presence_leaf [5, 0, 0, 0]
        (List.replicate (L / 2) none, List.replicate (L / 2) none)
        [3, 0, 0, 0]).2) ∧
    some [5, 0, 0, 0] ∉ (op_presence_leaf [5, 0, 0, 0]
        (List.replicate (L / 2) none, List.replicate (L / 2) none)
        [3, 0, 0, 0]).1 ∧
    some [5, 0, 0, 0] ∉ (op_presence_leaf [5, 0, 0, 0]
        (List.replicate (L / 2) none, List.replicate (L / 2) none)
        [3, 0, 0, 0]).2 :=
  pastry_leaf_set_invariant [5, 0, 0, 0] _
    (LeafReach.presence _ [3, 0, 0, 0] (by decide) LeafReach.init)

/-- C4: every insert request that reaches its responsible node raises
`TypeError` before any record is stored — the `KDTree` constructor does
not accept the `country_keys` keyword and `add_point` does not accept a
third argument — so the success branch of `_handle_insert_key_request`
is unreachable. -/
theorem insert_handler_always_type_errors (kd : Option KDStore)
    (key : NodeId) (point : List ℚ) (review : String) (selfId : NodeId) :
    handle_insert_responsible kd key point review selfId =
      Except.error PyError.typeError :=
  handle_insert_responsible_error kd key point review selfId

/-- Concrete store for claim C5: one record, matched by the degenerate
box `[0,0,0]..[0,0,0]`. -/
def c5Store : KDStore := { points := [[0, 0, 0]], reviews := ["good coffee"] }

/-- Concrete lookup key for claim C5. -/
def c5Key : NodeId := [12, 0, 15, 15]

/-- C5 (counterexample): a lookup at the responsible node with a
populated KD-Tree and one matching record answers only a status and a
count message — the response carries no `points`, no `reviews` and no
`similar` field, contrary to the claimed payload. -/
theorem lookup_response_drops_payload :
    handle_lookup_responsible (some c5Store) c5Key [0, 0, 0] [0, 0, 0] =
      Except.ok { status := some "success"
                  message := some "Found 1 matching points." } ∧
    ({ status := some "success"
       message := some "Found 1 matching points." } : Resp).points = none ∧
    ({ status := some "success"
       message := some "Found 1 matching points." } : Resp).reviews = none ∧
    ({ status := some "success"
       message := some "Found 1 matching points." } : Resp).similar = none := by
  have hs : kd_search c5Store [0, 0, 0] [0, 0, 0] =
      Except.ok ([[0, 0, 0]], ["good coffee"]) := by
    simp [kd_search, c5Store, distSq, maxQ, inBox, List.range_succ]
  have hp : c5Store.points.isEmpty = false := rfl
  refine ⟨?_, rfl, rfl, rfl⟩
  simp only [handle_lookup_responsible, hs, hp, Bool.false_eq_true, if_false,
    List.isEmpty_cons]
  decide

/-- C5 (amended): a lookup that reaches the responsible node and finds a
non-empty KD-Tree there computes the box matches and the LSH similars,
but the success response carries only `status = "success"` and a message
reporting the number of matching points; the points, reviews and similar
reviews are printed locally, not returned. -/
theorem lookup_success_reports_count_only (t : KDStore) (key : NodeId)
    (lower upper : List ℚ) (pts : List (List ℚ)) (revs : List String)
    (hpts : t.points.isEmpty = false)
    (hsearch : kd_search t lower upper = Except.ok (pts, revs))
    (hrevs : revs.isEmpty = false) :
    handle_lookup_responsible (some t) key lower upper =
      Except.ok { status := some "success"
                  message := some ("Found " ++ toString pts.length
                    ++ " matching points.") } := by
  simp [handle_lookup_responsible, hpts, hsearch, hrevs]

/-- C5 (witness): the amended theorem evaluated on the concrete store. -/
theorem lookup_success_reports_count_only_witness :
    handle_lookup_responsible (some c5Store) c5Key [0, 0, 0] [0, 0, 0] =
      Except.ok { status := some "success"
                  message := some ("Found "
                    ++ toString ([[(0 : ℚ), 0, 0]].length)
                    ++ " matching points.") } :=
  lookup_success_reports_count_only c5Store c5Key [0, 0, 0] [0, 0, 0]
    [[0, 0, 0]] ["good coffee"] rfl
    (by simp [kd_search, c5Store, distSq, maxQ, inBox, List.range_succ]) rfl

/-- C6: in every reachable routing table, a populated entry at row `r`,
column `c` shares exactly `r` leading digits with the owner, has digit
`c` at index `r`, and never sits on the diagonal (the owner's own digit
at row `r`). -/
theorem pastry_routing_table_invariant (selfId : NodeId) (t : Tbl)
    (hself : ValidIdB selfId = true) (h : RTReach selfId t) :
    ∀ r c e, getCell t r c = some (some e) →
      cpl selfId e = r ∧ e[r]? = some c ∧ selfId[r]? ≠ some c := by
  have hinv := rtReach_inv hself h
  intro r c e hget
  obtain ⟨hval, hcpl, hdig⟩ := hinv r c e hget
  refine ⟨hcpl, hdig, ?_⟩
  intro hcontra
  have hrlen_e : r < e.length := (List.getElem?_eq_some.mp hdig).1
  have hrlen_s : r < selfId.length := (List.getElem?_eq_some.mp hcontra).1
  have hne := cpl_digits_ne selfId e (by omega) (by omega)
  rw [hcpl] at hne
  exact hne (by rw [hcontra, hdig])

/-- C6 (witness): the invariant at the populated cell `(0, 1)` after a
single-entry update installing `1234` at the owner `0000`, starting from
the empty table. -/
theorem pastry_routing_table_invariant_witness :
    cpl [0, 0, 0, 0] [1, 2, 3, 4] = 0 ∧
    ([1, 2, 3, 4] : NodeId)[0]? = some 1 ∧
    ([0, 0, 0, 0] : NodeId)[0]? ≠ some 1 :=
  pastry_routing_table_invariant [0, 0, 0, 0] _ (by decide)
    (RTReach.entry emptyTbl 0 [1, 2, 3, 4] (by decide) RTReach.init)
    0 1 [1, 2, 3, 4] (by decide)

/-- Concrete node state for the C7 counterexample. -/
def c7State : PastryState :=
  { node_id := [1, 1, 1, 1]
    position := 0
    routing_table := emptyTbl
    Lmin := [none, none]
    Lmax := [none, none]
    neighborhood_set := []
    kd_tree := none }

/-- C7 (counterexample): the `DISTANCE` handler answers a dictionary
with only `distance` and `neighborhood_set` — no `status`, no `message`
and no `hops` — so not every response carries the claimed fields. -/
theorem response_missing_fields_counterexample :
    (local_response c7State (Request.distanceReq 0 [])).2 =
      some (PyResp.dict { distance := some 0, neighborhood_set := some [] }) ∧
    ({ distance := some 0, neighborhood_set := some [] } : Resp).status = none ∧
    ({ distance := some 0, neighborhood_set := some [] } : Resp).message = none ∧
    ({ distance := some 0, neighborhood_set := some [] } : Resp).hops = none := by
  refine ⟨?_, rfl, rfl, rfl⟩
  simp [local_response, c7State, topological_distance]

/-- Shared helper: shape of any successful delete-handler response. -/
theorem delete_ok_shape {kd : Option KDStore} {key : NodeId}
    {out : Option KDStore × Resp}
    (h : handle_delete_responsible kd key = Except.ok out) :
    out.2.status = some "failure" ∧ out.2.message.isSome = true ∧
      out.2.hops = none := by
  cases kd with
  | none => cases h; exact ⟨rfl, rfl, rfl⟩
  | some t => simp [handle_delete_responsible] at h

/-- Shared helper: shape of any successful update-handler response. -/
theorem update_ok_shape {kd : Option KDStore} {key : NodeId}
    {hops : List NodeId} {out : Option KDStore × Resp}
    (h : handle_update_responsible kd key hops = Except.ok out) :
    out.2.status = some "failure" ∧ out.2.message.isSome = true ∧
      out.2.hops = some hops := by
  cases kd with
  | none => cases h; exact ⟨rfl, rfl, rfl⟩
  | some t => simp [handle_update_responsible] at h

/-- Shared helper: shape of any successful lookup-handler response. -/
theorem lookup_ok_shape {kd : Option KDStore} {key : NodeId}
    {lower upper : List ℚ} {r : Resp}
    (h : handle_lookup_responsible kd key lower upper = Except.ok r) :
    (r.status = some "success" ∨ r.status = some "failure") ∧
      r.message.isSome = true ∧ r.hops = none := by
  cases kd with
  | none => cases h; exact ⟨Or.inr rfl, rfl, rfl⟩
  | some t =>
      simp only [handle_lookup_responsible] at h
      by_cases hempty : t.points.isEmpty = true
      · rw [if_pos hempty] at h
        cases h
        exact ⟨Or.inr rfl, rfl, rfl⟩
      · rw [if_neg hempty] at h
        rcases hs : kd_search t lower upper with e | pr
        · simp only [hs] at h
          exact absurd h (by simp)
        · simp only [hs] at h
          rcases pr with ⟨pts, revs⟩
          by_cases hrevs : revs.isEmpty = true
          · rw [if_pos hrevs] at h
            simp at h
          · rw [if_neg hrevs] at h
            cases h
            exact ⟨Or.inl rfl, rfl, rfl⟩

/-- C7 (amended): every receiver appends its ID to the request's `hops`
list, and every response dictionary generated locally by a *content*
handler (insert, delete, lookup, update, leave, unknown operation)
carries `status ∈ {"success","failure"}` and a message; but only
`UPDATE_KEY` responses carry the `hops` list (with the receiver's ID
appended twice — once by the dispatcher, once by the handler).  Join
acks, `DISTANCE`, `GET_LEAF_SET` and the presence/routing/leaf-set
update operations' bare `None` replies carry fewer fields. -/
theorem content_response_shapes (s : PastryState) (req : Request) :
    (local_response s req).1 = reqHops req ++ [s.node_id] ∧
    (∀ r, (local_response s req).2 = some (PyResp.dict r) →
      isContentOp req = true →
      ((r.status = some "success" ∨ r.status = some "failure") ∧
        r.message.isSome = true ∧
        (isUpdateKeyOp req = true →
          r.hops = some ((reqHops req ++ [s.node_id]) ++ [s.node_id])) ∧
        (isUpdateKeyOp req = false → r.hops = none))) := by
  cases req with
  | insertKey key point review country hops =>
      refine ⟨rfl, ?_⟩
      intro r hr _
      simp only [local_response] at hr
      rcases hfnh : find_next_hop s key with e | nh <;>
        simp [hfnh, handle_insert_responsible_error] at hr
  | deleteKey key hops =>
      refine ⟨rfl, ?_⟩
      intro r hr _
      simp only [local_response] at hr
      rcases hfnh : find_next_hop s key with e | nh
      · simp [hfnh] at hr
      · simp only [hfnh] at hr
        by_cases hcond : (in_leaf_set s key || decide (nh = s.node_id)) = true
        · rw [if_pos hcond] at hr
          rcases hh : handle_delete_responsible s.kd_tree key with e2 | out
          · simp [hh] at hr
          · rcases out with ⟨kd2, rr⟩
            simp only [hh] at hr
            simp at hr
            subst hr
            obtain ⟨h1, h2, h3⟩ := delete_ok_shape hh
            refine ⟨Or.inr h1, h2, ?_, fun _ => h3⟩
            intro hco
            simp [isUpdateKeyOp] at hco
        · rw [if_neg hcond] at hr
          simp at hr
  | lookupReq key lower upper n hops =>
      refine ⟨rfl, ?_⟩
      intro r hr _
      simp only [local_response] at hr
      rcases hfnh : find_next_hop s key with e | nh
      · simp [hfnh] at hr
      · simp only [hfnh] at hr
        by_cases hcond : (in_leaf_set s key || decide (nh = s.node_id)) = true
        · rw [if_pos hcond] at hr
          rcases hh : handle_lookup_responsible s.kd_tree key lower upper with e2 | rr
          · simp [hh] at hr
          · simp only [hh] at hr
            simp at hr
            subst hr
            obtain ⟨h1, h2, h3⟩ := lookup_ok_shape hh
            refine ⟨h1, h2, ?_, fun _ => h3⟩
            intro hco
            simp [isUpdateKeyOp] at hco
        · rw [if_neg hcond] at hr
          simp at hr
  | updateKey key hops =>
      refine ⟨rfl, ?_⟩
      intro r hr _
      simp only [local_response, reqHops] at hr
      rcases hfnh : find_next_hop s key with e | nh
      · simp [hfnh] at hr
      · simp only [hfnh] at hr
        by_cases hcond : (in_leaf_set s key || decide (nh = s.node_id)) = true
        · rw [if_pos hcond] at hr
          split at hr
          · simp at hr
          · rename_i fst rr heq
            simp at hr
            subst hr
            obtain ⟨h1, h2, h3⟩ := update_ok_shape heq
            refine ⟨Or.inr h1, h2, fun _ => ?_, ?_⟩
            · rw [h3]
              simp [reqHops, List.append_assoc]
            · intro hco
              simp [isUpdateKeyOp] at hco
        · rw [if_neg hcond] at hr
          simp at hr
  | nodeJoin newId hops =>
      refine ⟨rfl, ?_⟩
      intro r hr hco
      simp [isContentOp] at hco
  | nodeLeave leavingId hops =>
      refine ⟨rfl, ?_⟩
      intro r hr _
      simp only [local_response] at hr
      simp at hr
      subst hr
      refine ⟨Or.inl rfl, rfl, ?_, fun _ => rfl⟩
      intro hco
      simp [isUpdateKeyOp] at hco
  | distanceReq pos hops =>
      refine ⟨rfl, ?_⟩
      intro r hr hco
      simp [isContentOp] at hco
  | getLeafSet =>
      refine ⟨rfl, ?_⟩
      intro r hr hco
      simp [isContentOp] at hco
  | updateRoutingRow rowIdx row hops =>
      refine ⟨rfl, ?_⟩
      intro r hr hco
      simp [isContentOp] at hco
  | updateRoutingEntry rowIdx nid hops =>
      refine ⟨rfl, ?_⟩
      intro r hr hco
      simp [isContentOp] at hco
  | updateLeafSetReq lmin lmax key hops =>
      refine ⟨rfl, ?_⟩
      intro r hr hco
      simp [isContentOp] at hco
  | updatePresence nid hops =>
      refine ⟨rfl, ?_⟩
      intro r hr hco
      simp [isContentOp] at hco
  | unknownOp hops =>
      refine ⟨rfl, ?_⟩
      intro r hr _
      simp only [local_response] at hr
      simp at hr
      subst hr
      refine ⟨Or.inr rfl, rfl, ?_, fun _ => rfl⟩
      intro hco
      simp [isUpdateKeyOp] at hco

/-- Concrete node state for the C7 witness: the key `3333` sits in the
owner `2222`'s leaf set, so a delete for it is answered locally with a
content dictionary (the store is empty, hence a failure dict). -/
def c7WitState : PastryState :=
  { node_id := [2, 2, 2, 2]
    position := 0
    routing_table := emptyTbl
    Lmin := [none, none]
    Lmax := [some [3, 3, 3, 3], none]
    neighborhood_set := []
    kd_tree := none }

/-- C7 (witness): the amended shape facts at a concrete delete request
that reaches its responsible node, where `local_response` really does
produce a content dictionary (first conjunct), so the status/message/
hops implication is exercised non-vacuously. -/
theorem content_response_shapes_witness :
    (local_response c7WitState (Request.deleteKey [3, 3, 3, 3] [])).2 =
      some (PyResp.dict
        { status := some "failure"
          message := some "No data for key 3333.\n" }) ∧
    ((local_response c7WitState (Request.deleteKey [3, 3, 3, 3] [])).1 =
      [] ++ [c7WitState.node_id] ∧
    (∀ r, (local_response c7WitState (Request.deleteKey [3, 3, 3, 3] [])).2 =
        some (PyResp.dict r) →
      isContentOp (Request.deleteKey [3, 3, 3, 3] []) = true →
      ((r.status = some "success" ∨ r.status = some "failure") ∧
        r.message.isSome = true ∧
        (isUpdateKeyOp (Request.deleteKey [3, 3, 3, 3] []) = true →
          r.hops = some (([] ++ [c7WitState.node_id]) ++ [c7WitState.node_id])) ∧
        (isUpdateKeyOp (Request.deleteKey [3, 3, 3, 3] []) = false →
          r.hops = none)))) :=
  ⟨by decide,
    content_response_shapes c7WitState (Request.deleteKey [3, 3, 3, 3] [])⟩

/-- C8: a delete that reaches its responsible node when nothing is
stored there (in every reachable store nothing ever is, since inserts
always fail) answers `status = "failure"` with a descriptive message, no
exception escapes to the caller, and the store is unchanged. -/
theorem delete_missing_key_fails_cleanly (kd : Option KDStore)
    (key : NodeId) (h : KDReachable kd) :
    handle_delete_responsible kd key =
      Except.ok (kd,
        { status := some "failure"
          message := some ("No data for key " ++ idStr key ++ ".\n") }) := by
  have hnone := kd_reachable_eq_none h
  subst hnone
  rfl

/-- C8 (witness): the clean failure at the initial (empty) store. -/
theorem delete_missing_key_fails_cleanly_witness :
    handle_delete_responsible none [0, 0, 0, 0] =
      Except.ok (none,
        { status := some "failure"
          message := some "No data for key 0000.\n" }) :=
  delete_missing_key_fails_cleanly none [0, 0, 0, 0] KDReachable.init

/-- C9: with a fixed registry, `_rebuild_node_state` is idempotent — it
reads only the node's ID, position and the registry, none of which it
writes, so a second rebuild reproduces the same `Lmin`, `Lmax`,
neighborhood set and routing table. -/
theorem rebuild_idempotent (reg : Registry) (s : PastryState) :
    op_rebuild_full reg (op_rebuild_full reg s) = op_rebuild_full reg s := rfl

/-- Concrete node state for the C10 witness. -/
def c10State : PastryState :=
  { node_id := [0, 0, 0, 0]
    position := 0
    routing_table := emptyTbl
    Lmin := [none, none]
    Lmax := [none, none]
    neighborhood_set := []
    kd_tree := none }

/-- C10: for a key sharing all `HASH_HEX_DIGITS` digits with the node's
ID (in particular the node's own ID) that is not in the leaf set,
`_find_next_hop` indexes `routing_table[HASH_HEX_DIGITS]`, which is out
of bounds for the `HASH_HEX_DIGITS`-row table, raising `IndexError`
instead of returning the node itself. -/
theorem next_hop_full_prefix_index_error (s : PastryState) (key : NodeId)
    (hlen : s.routing_table.length = HASH_HEX_DIGITS)
    (hcpl : cpl s.node_id key = HASH_HEX_DIGITS)
    (hleaf : in_leaf_set s key = false) :
    find_next_hop s key = Except.error PyError.indexError := by
  unfold find_next_hop
  rw [hleaf]
  have hnone : s.routing_table[cpl s.node_id key]? = none := by
    rw [hcpl]
    exact List.getElem?_eq_none (le_of_eq hlen)
  simp [hnone]

/-- C10 (witness): looking up the node's own ID crashes with
`IndexError`. -/
theorem next_hop_full_prefix_index_error_witness :
    find_next_hop c10State [0, 0, 0, 0] = Except.error PyError.indexError :=
  next_hop_full_prefix_index_error c10State [0, 0, 0, 0] rfl (by decide) (by decide)

end DHT
